import Mathlib

/-!
# Verification of the Azure cost aggregation script

Shallow embedding of `src/cost_analysis/aggregate_azure_cost.py`.

Modelling conventions, used throughout:

* Python `float` values are modelled as exact rationals (`ℚ`); the script only
  adds, subtracts, divides and compares costs, and none of the claims under
  scrutiny hinges on binary floating-point rounding.
* The filesystem is modelled as a value of type `FS`: a list of files, each
  carrying its directory, its name and its content.  The content records the
  raw text together with the result that `json.load` produces on that text
  (`none` models a `json.JSONDecodeError`); the JSON decoder itself is a
  trusted external library and is not re-implemented.
* Strings are processed at the `List Char` level.  The script only ever
  lowercases, compares and pattern-matches ASCII text, so the ASCII fragment
  of `str.lower`, `\s`, `\d` and friends is modelled; this is exact for every
  input actually distinguished by the script's patterns.
* Exceptions are modelled with `Except PyExn`.  A Python run that terminates
  with an uncaught exception exits with status 1 and writes no report, which
  is how `main` is modelled below.
-/

namespace CostAgg

/-- ASCII lowercasing of one character, the fragment of Python `str.lower`
relevant to the script (codepoints 65–90 map down by 32, all else fixed). -/
def lowerChar (c : Char) : Char :=
  if 'A' ≤ c ∧ c ≤ 'Z' then Char.ofNat (c.toNat + 32) else c

/-- Model of Python `str.lower` on the character list of a string. -/
def lowerStr (s : List Char) : List Char := s.map lowerChar

/-- ASCII decimal digit test, the relevant fragment of regex `\d`. -/
def isDigitC (c : Char) : Bool := decide ('0' ≤ c ∧ c ≤ '9')

/-- Lower-case hexadecimal digit test, regex class `[0-9a-f]`. -/
def isHexLower (c : Char) : Bool := isDigitC c || decide ('a' ≤ c ∧ c ≤ 'f')

/-- ASCII whitespace, the relevant fragment of regex `\s`. -/
def isPySpace (c : Char) : Bool :=
  decide (c = ' ' ∨ c = '\t' ∨ c = '\n' ∨ c = '\r' ∨ c = '\x0b' ∨ c = '\x0c')

/-- Character class `[\d,]` of the TOTAL COSTS pattern. -/
def isDigComma (c : Char) : Bool := isDigitC c || decide (c = ',')

/-- Boolean prefix test on character lists. -/
def isPrefixB : List Char → List Char → Bool
  | [], _ => true
  | _ :: _, [] => false
  | a :: as, b :: bs => a = b && isPrefixB as bs

/-- Boolean substring test, modelling Python `needle in haystack`. -/
def containsSub (needle : List Char) : List Char → Bool
  | [] => isPrefixB needle []
  | c :: cs => isPrefixB needle (c :: cs) || containsSub needle cs

/-- Consume an exact literal from the front of the input, returning the rest. -/
def expectLit : List Char → List Char → Option (List Char)
  | [], cs => some cs
  | _ :: _, [] => none
  | l :: ls, c :: cs => if c = l then expectLit ls cs else none

/-- Leftmost-match search: try a head matcher at every start position from
the left, modelling `re.search` for a matcher whose behaviour at one start
position is deterministic. -/
def scanFirst {α : Type} (m : List Char → Option α) : List Char → Option α
  | [] => none
  | c :: cs =>
    match m (c :: cs) with
    | some x => some x
    | none => scanFirst m cs

/-- Boolean lexicographic comparison of character lists (by codepoint), the
order Python uses to sort path strings. -/
def lexLe : List Char → List Char → Bool
  | [], _ => true
  | _ :: _, [] => false
  | a :: as, b :: bs => decide (a < b) || (decide (a = b) && lexLe as bs)

/-- Lexicographic comparison of strings, used to model `sorted`. -/
def strLe (a b : String) : Bool := lexLe a.toList b.toList

/-- The Python exceptions observable in the script's extraction paths. -/
inductive PyExn
  | valueError
  | typeError
  | keyError
  | jsonDecodeError
  | fileNotFoundError
deriving DecidableEq

/-- A decoded JSON value, the possible results of `json.load`. -/
inductive JsonVal
  | null
  | bool (b : Bool)
  | num (q : ℚ)
  | str (s : String)
  | arr (elts : List JsonVal)
  | obj (fields : List (String × JsonVal))

/-- Content of one file: its raw text, and what `json.load` yields on that
text — `none` models a `json.JSONDecodeError`.  The decoder is an external
library; its per-file outcome is part of the filesystem model. -/
structure ContentView where
  text : String
  json : Option JsonVal

/-- One file on disk: the directory it sits in, its file name, its content. -/
structure FileEntry where
  dir : String
  name : String
  content : ContentView

/-- The filesystem under the input root, as seen by `os.walk`, `open` and
`Path.exists`: whether the root directory exists, and the files below it. -/
structure FS where
  rootExists : Bool
  files : List FileEntry

/-- Full path of a file, directory and name joined by the separator. -/
def pathOf (f : FileEntry) : String := f.dir ++ "/" ++ f.name

/-- Content of the file at a path, `none` when no such file exists
(`FileNotFoundError` on `open`). -/
def fsContent (fs : FS) (p : String) : Option ContentView :=
  (fs.files.find? (fun f => pathOf f = p)).map (·.content)

/-- Model of `Path.exists`. -/
def pathExists (fs : FS) (p : String) : Bool := (fsContent fs p).isSome

/-- Numeric value of a list of ASCII digits, most significant first. -/
def digitsVal (ds : List Char) : ℕ := ds.foldl (fun n c => 10 * n + (c.toNat - 48)) 0

/-- Raw components recognised by Python `float(str)` on the grammar fragment
the script can feed it: optional sign, integer digits, optional fractional
digits, optional decimal exponent.  Returns
`(negative, mantissa, fraction length, exponent)`, or `none` when the string
is not float-convertible (a `ValueError` in Python). -/
def pyFloatRaw (s : List Char) : Option (Bool × ℕ × ℕ × ℤ) :=
  let (neg, s1) : Bool × List Char :=
    match s with
    | c :: r => if c = '+' then (false, r) else if c = '-' then (true, r) else (false, s)
    | [] => (false, s)
  let ip := s1.takeWhile isDigitC
  let s2 := s1.dropWhile isDigitC
  let (fp, s3) : List Char × List Char :=
    match s2 with
    | c :: r => if c = '.' then (r.takeWhile isDigitC, r.dropWhile isDigitC) else ([], s2)
    | [] => ([], s2)
  if ip.isEmpty && fp.isEmpty then none
  else
    let mant := digitsVal (ip ++ fp)
    match s3 with
    | [] => some (neg, mant, fp.length, 0)
    | c :: r => if c = 'e' ∨ c = 'E' then pyFloatExp neg mant fp.length r else none
where
  /-- Exponent part `[+-]?digits` at the end of a float literal. -/
  pyFloatExp (neg : Bool) (mant : ℕ) (fracLen : ℕ) (r : List Char) :
      Option (Bool × ℕ × ℕ × ℤ) :=
    let (eneg, r1) : Bool × List Char :=
      match r with
      | c :: t => if c = '+' then (false, t) else if c = '-' then (true, t) else (false, r)
      | [] => (false, r)
    let ed := r1.takeWhile isDigitC
    if ed.isEmpty || !(r1.dropWhile isDigitC).isEmpty then none
    else some (neg, mant, fracLen, (if eneg then -1 else 1) * (digitsVal ed : ℤ))

/-- Model of Python `float(str)` as an exact rational, on the grammar
fragment above; `none` models `ValueError`. -/
def pyFloatParse (s : List Char) : Option ℚ :=
  (pyFloatRaw s).map (fun x =>
    (if x.1 then -1 else 1) * (x.2.1 : ℚ) / 10 ^ x.2.2.1 * 10 ^ x.2.2.2)

/-- Model of Python `float(v)` on a decoded JSON value: numbers convert
exactly, booleans to 0/1, strings through `float(str)` (raising `ValueError`
when not numeric-convertible), and every other shape raises `TypeError`. -/
def pyFloat : JsonVal → Except PyExn ℚ
  | .num q => .ok q
  | .bool b => .ok (if b then 1 else 0)
  | .str s =>
    match pyFloatParse s.toList with
    | some q => .ok q
    | none => .error .valueError
  | .null => .error .typeError
  | .arr _ => .error .typeError
  | .obj _ => .error .typeError

/-- Model of Python `key in v` on a decoded JSON value: key membership on a
dict, element equality on a list, substring test on a string, and a
`TypeError` (argument not iterable) on every other shape. -/
def pyContains (v : JsonVal) (key : String) : Except PyExn Bool :=
  match v with
  | .obj fields => .ok (fields.any (fun kv => kv.1 = key))
  | .arr elts => .ok (elts.any (fun e => match e with | .str t => key = t | _ => false))
  | .str s => .ok (containsSub key.toList s.toList)
  | _ => .error .typeError

/-- Model of Python `v[key]` with a string key on a decoded JSON value: dict
lookup (raising `KeyError` when absent), and a `TypeError` on lists, strings
and scalars (non-integer index / not subscriptable). -/
def pyGetItem (v : JsonVal) (key : String) : Except PyExn JsonVal :=
  match v with
  | .obj fields =>
    match fields.find? (fun kv => kv.1 = key) with
    | some kv => .ok kv.2
    | none => .error .keyError
  | _ => .error .typeError

/-! ## The UUID pattern of `extract_subscription_id`

Regex `([0-9a-f]{8}-[0-9a-f]{4}-[0-9a-f]{4}-[0-9a-f]{4}-[0-9a-f]{12})`,
searched by `re.search` in the lowered file name.  All quantifiers are exact
counts, so matching at a given start position is deterministic, and
`re.search` takes the leftmost matching position. -/

/-- Consume exactly `n` lower-case hex digits, returning the rest. -/
def hexRun : ℕ → List Char → Option (List Char)
  | 0, cs => some cs
  | n + 1, c :: cs => if isHexLower c then hexRun n cs else none
  | _ + 1, [] => none

/-- Consume one hyphen. -/
def dashRun : List Char → Option (List Char)
  | c :: cs => if c = '-' then some cs else none
  | [] => none

/-- Does the UUID pattern match at the head of the input? -/
def uuidHead (cs : List Char) : Bool :=
  ((((((((hexRun 8 cs).bind dashRun).bind (hexRun 4)).bind dashRun).bind
      (hexRun 4)).bind dashRun).bind (hexRun 4)).bind dashRun).bind
      (hexRun 12) |>.isSome

/-- Head matcher for the UUID pattern: the 36 matched characters, if any. -/
def uuidMatch (cs : List Char) : Option (List Char) :=
  if uuidHead cs then some (cs.take 36) else none

/-- Leftmost UUID match in the input: the 36 matched characters, if any. -/
def findUuid : List Char → Option (List Char) := scanFirst uuidMatch

/-- Model of `AzureCostAggregator.extract_subscription_id`: first UUID-shaped
substring of the lowered file name, or `None`.  (The source lowers the whole
name first and searches the lower-case-hex pattern, so the result is already
lower-case.)  A pure function of the name. -/
def extract_subscription_id (filename : String) : Option String :=
  (findUuid (lowerStr filename.toList)).map (fun l => String.mk l)

/-- Model of `AzureCostAggregator.find_diff_files`: every file under the root
whose name contains `"diff"` case-insensitively, as full paths in sorted
order.  (`os.walk` enumeration order is irrelevant: the result is sorted.) -/
def find_diff_files (fs : FS) : List FileEntry :=
  (fs.files.filter
      (fun f => containsSub "diff".toList (lowerStr f.name.toList))).mergeSort
    (fun a b => strLe (pathOf a) (pathOf b))

/-- Model of `AzureCostAggregator.parse_json_cost_file`.  The `try` block
opens the file, decodes it, and on
`'totals' in data and 'totalCostInTimeframe' in data['totals']` returns
`float(data['totals']['totalCostInTimeframe'])`; falling through returns
`None`.  Only `JSONDecodeError`, `FileNotFoundError` and `KeyError` are
caught (yielding `None` with a warning); any other exception propagates. -/
def parse_json_cost_file (fs : FS) (json_path : String) : Except PyExn (Option ℚ) :=
  let body : Except PyExn (Option ℚ) :=
    match fsContent fs json_path with
    | none => .error .fileNotFoundError
    | some cv =>
      match cv.json with
      | none => .error .jsonDecodeError
      | some data => do
        let hasTotals ← pyContains data "totals"
        if hasTotals then do
          let totals ← pyGetItem data "totals"
          let hasField ← pyContains totals "totalCostInTimeframe"
          if hasField then do
            let v ← pyGetItem totals "totalCostInTimeframe"
            let q ← pyFloat v
            pure (some q)
          else pure none
        else pure none
  match body with
  | .ok r => .ok r
  | .error .jsonDecodeError => .ok none
  | .error .fileNotFoundError => .ok none
  | .error .keyError => .ok none
  | .error e => .error e

/-! ## The TOTAL COSTS pattern of `parse_diff_text_file`

Regex `\|\s*TOTAL COSTS\s*\|\s*([\d,]+\.\d+)\s*EUR\s*\|\s*([\d,]+\.\d+)\s*EUR`,
searched in the whole file content.  Every `\s*` is followed by a character
no run of whitespace can contain, `[\d,]+` is always followed by `.`, and
`\d+` by `\s*EUR`, so greedy matching at a given start position is forced and
deterministic (proved below as the equivalence with the declarative
decomposition `RowFrom`); `re.search` takes the leftmost matching position. -/

def totalCostsLit : List Char := "TOTAL COSTS".toList

def eurLit : List Char := "EUR".toList

/-- Match `([\d,]+\.\d+)` at the head of the input: the captured group and
the rest, or `none`. -/
def grabFig (cs : List Char) : Option (List Char × List Char) :=
  let a := cs.takeWhile isDigComma
  if a.isEmpty then none
  else
    match cs.dropWhile isDigComma with
    | c :: r =>
      if c = '.' then
        let b := r.takeWhile isDigitC
        if b.isEmpty then none
        else some (a ++ '.' :: b, r.dropWhile isDigitC)
      else none
    | [] => none

/-- Match the whole TOTAL COSTS pattern at the head of the input, returning
the two captured groups. -/
def rowFromHead (cs : List Char) : Option (List Char × List Char) :=
  match cs with
  | [] => none
  | c0 :: r0 =>
    if c0 = '|' then
      match expectLit totalCostsLit (r0.dropWhile isPySpace) with
      | none => none
      | some r1 =>
        match r1.dropWhile isPySpace with
        | [] => none
        | c1 :: r2 =>
          if c1 = '|' then
            match grabFig (r2.dropWhile isPySpace) with
            | none => none
            | some (g1, r3) =>
              match expectLit eurLit (r3.dropWhile isPySpace) with
              | none => none
              | some r4 =>
                match r4.dropWhile isPySpace with
                | [] => none
                | c2 :: r5 =>
                  if c2 = '|' then
                    match grabFig (r5.dropWhile isPySpace) with
                    | none => none
                    | some (g2, r6) =>
                      match expectLit eurLit (r6.dropWhile isPySpace) with
                      | none => none
                      | some _ => some (g1, g2)
                  else none
          else none
    else none

/-- Leftmost match of the TOTAL COSTS pattern anywhere in the input,
modelling `re.search`. -/
def searchRow : List Char → Option (List Char × List Char) := scanFirst rowFromHead

/-- Model of `group.replace(',', '')`. -/
def stripCommas (g : List Char) : List Char := g.filter (fun c => c ≠ ',')

/-- Model of `AzureCostAggregator.parse_diff_text_file`: read the file,
search the TOTAL COSTS pattern, and return
`(float(g1.replace(',','')), float(g2.replace(',','')))`; on
`FileNotFoundError` or `ValueError` (both caught), or no match, return
`(None, None)`. -/
def parse_diff_text_file (fs : FS) (diff_path : String) : Option ℚ × Option ℚ :=
  match fsContent fs diff_path with
  | none => (none, none)
  | some cv =>
    match searchRow cv.text.toList with
    | none => (none, none)
    | some (g1, g2) =>
      match pyFloatParse (stripCommas g1), pyFloatParse (stripCommas g2) with
      | some q1, some q2 => (some q1, some q2)
      | _, _ => (none, none)

/-- Model of `AzureCostAggregator.find_related_json_files`: probe the
candidate sibling file names next to the diff file, in priority order, and
return the first existing path for each period. -/
def find_related_json_files (fs : FS) (diff_file : FileEntry) (sub_id : String) :
    Option String × Option String :=
  let parent := diff_file.dir
  let novPatterns : List String :=
    [parent ++ "/november-" ++ sub_id ++ ".json",
     parent ++ "/nov-" ++ sub_id ++ ".json",
     parent ++ "/september-" ++ sub_id ++ ".json",
     parent ++ "/sept-" ++ sub_id ++ ".json"]
  let decPatterns : List String :=
    [parent ++ "/december-" ++ sub_id ++ ".json",
     parent ++ "/dec-" ++ sub_id ++ ".json",
     parent ++ "/october-" ++ sub_id ++ ".json",
     parent ++ "/oct-" ++ sub_id ++ ".json"]
  (novPatterns.find? (pathExists fs), decPatterns.find? (pathExists fs))

/-! ## Subscription records and the reconciliation fold -/

/-- Per-period slice of a subscription record: `total`, `currency`, `file`. -/
structure PeriodData where
  total : ℚ
  currency : String
  file : Option String
deriving DecidableEq

/-- One subscription record, as held in `self.subscription_data`. -/
structure SubRecord where
  november : PeriodData
  december : PeriodData
  diff_file : Option String
deriving DecidableEq

/-- The `defaultdict` default: both periods at total 0.0, currency EUR, no
source files. -/
def freshRecord : SubRecord :=
  ⟨⟨0, "EUR", none⟩, ⟨0, "EUR", none⟩, none⟩

/-- The subscription mapping, as the insertion-ordered item list of the
Python dict. -/
abbrev SubMap := List (String × SubRecord)

/-- Record held for an identifier, if any. -/
def lookupSub (st : SubMap) (sid : String) : Option SubRecord :=
  (st.find? (fun kv => kv.1 = sid)).map (·.2)

/-- Record for an identifier, or the `defaultdict` default: the value
`self.subscription_data[sub_id]` reads. -/
def getOr (st : SubMap) (sid : String) : SubRecord :=
  (lookupSub st sid).getD freshRecord

/-- Store a record under an identifier, keeping dict insertion order:
replace in place if present, append if absent. -/
def setSub : SubMap → String → SubRecord → SubMap
  | [], sid, r => [(sid, r)]
  | kv :: rest, sid, r =>
    if kv.1 = sid then (sid, r) :: rest else kv :: setSub rest sid r

/-- Read-modify-write of one identifier's record, with `defaultdict`
creation on first access. -/
def updateSub (st : SubMap) (sid : String) (f : SubRecord → SubRecord) : SubMap :=
  setSub st sid (f (getOr st sid))

/-- Loop body of `AzureCostAggregator.process_all_files` for one discovered
diff file: extract the identifier (skip the file when absent), record the
diff path, extract the fallback pair, locate the sibling JSON files, and
resolve each period — structured value (and path) when the sibling exists
and parses, else the fallback value when the sibling is absent, else leave
the period untouched.  An uncaught exception from `parse_json_cost_file`
aborts the whole run. -/
def processFile (fs : FS) (st : SubMap) (f : FileEntry) : Except PyExn SubMap :=
  match extract_subscription_id f.name with
  | none => .ok st
  | some sub_id =>
    let st0 := updateSub st sub_id (fun r => { r with diff_file := some (pathOf f) })
    let sc := parse_diff_text_file fs (pathOf f)
    let nd := find_related_json_files fs f sub_id
    do
      let st1 ←
        match nd.1 with
        | some novPath => do
          let novCost ← parse_json_cost_file fs novPath
          pure (match novCost with
            | some v => updateSub st0 sub_id (fun r =>
                { r with november := { r.november with total := v, file := some novPath } })
            | none => st0)
        | none =>
          pure (match sc.1 with
            | some v => updateSub st0 sub_id (fun r =>
                { r with november := { r.november with total := v } })
            | none => st0)
      let st2 ←
        match nd.2 with
        | some decPath => do
          let decCost ← parse_json_cost_file fs decPath
          pure (match decCost with
            | some v => updateSub st1 sub_id (fun r =>
                { r with december := { r.december with total := v, file := some decPath } })
            | none => st1)
        | none =>
          pure (match sc.2 with
            | some v => updateSub st1 sub_id (fun r =>
                { r with december := { r.december with total := v } })
            | none => st1)
      pure st2

/-- Fold of `processFile` over a list of discovered files, stopping at the
first uncaught exception. -/
def processList (fs : FS) : SubMap → List FileEntry → Except PyExn SubMap
  | st, [] => .ok st
  | st, f :: rest =>
    match processFile fs st f with
    | .ok st' => processList fs st' rest
    | .error e => .error e

/-- Model of `AzureCostAggregator.process_all_files`: fold the loop body over
the sorted discovered files, starting from the empty mapping. -/
def process_all_files (fs : FS) : Except PyExn SubMap :=
  processList fs [] (find_diff_files fs)

/-- Result record of `AzureCostAggregator.calculate_aggregates`. -/
structure Aggregates where
  total_november : ℚ
  total_december : ℚ
  total_change : ℚ
  percent_change : ℚ
  subscription_count : ℕ
deriving DecidableEq

/-- Model of `AzureCostAggregator.calculate_aggregates`: accumulate both
period totals over the mapping, then change, percent change (0 when the
November total is 0) and the subscription count.  A pure function of the
mapping. -/
def calculate_aggregates (st : SubMap) : Aggregates :=
  let total_nov : ℚ := st.foldl (fun acc kv => acc + kv.2.november.total) 0
  let total_dec : ℚ := st.foldl (fun acc kv => acc + kv.2.december.total) 0
  let change := total_dec - total_nov
  let percent_change := if total_nov ≠ 0 then change / total_nov * 100 else 0
  ⟨total_nov, total_dec, change, percent_change, st.length⟩

/-- Model of `main`: exit status 1 with no report when the input root does
not exist; otherwise process all files — an uncaught exception terminates
the interpreter with status 1 and no report — and then exit 1 with no report
when the mapping is empty, else write the report and exit 0.  Result:
`(exit status, report written?)`. -/
def main (fs : FS) : ℕ × Bool :=
  if fs.rootExists then
    match process_all_files fs with
    | .error _ => (1, false)
    | .ok st => if st.isEmpty then (1, false) else (0, true)
  else (1, false)

/-! ## Character-class facts -/

theorem isPySpace_cases {c : Char} (h : isPySpace c = true) :
    c = ' ' ∨ c = '\t' ∨ c = '\n' ∨ c = '\r' ∨ c = '\x0b' ∨ c = '\x0c' := by
  simpa [isPySpace] using h

theorem not_space_of_digit {c : Char} (h : isDigitC c = true) : isPySpace c = false := by
  have h' : '0' ≤ c ∧ c ≤ '9' := by simpa [isDigitC] using h
  by_contra hc
  rcases isPySpace_cases (by simpa using hc) with rfl | rfl | rfl | rfl | rfl | rfl <;>
    revert h' <;> decide

theorem not_space_of_digComma {c : Char} (h : isDigComma c = true) : isPySpace c = false := by
  rcases (by simpa [isDigComma] using h : isDigitC c = true ∨ c = ',') with hd | rfl
  · exact not_space_of_digit hd
  · decide

theorem not_digit_of_space {c : Char} (h : isPySpace c = true) : isDigitC c = false := by
  rcases isPySpace_cases h with rfl | rfl | rfl | rfl | rfl | rfl <;> decide

theorem not_digComma_of_space {c : Char} (h : isPySpace c = true) : isDigComma c = false := by
  rcases isPySpace_cases h with rfl | rfl | rfl | rfl | rfl | rfl <;> decide

/-! ## Lexicographic order: `strLe` agrees with the `String` linear order -/

theorem lexLe_iff_not_lex (a b : List Char) :
    lexLe a b = true ↔ ¬ List.Lex (· < ·) b a := by
  induction a generalizing b with
  | nil =>
    exact iff_of_true (by simp [lexLe]) (List.Lex.not_nil_right (· < ·) b)
  | cons x xs ih =>
    cases b with
    | nil =>
      simp only [lexLe]
      constructor
      · intro h; cases h
      · intro h; exact absurd (List.Lex.nil) h
    | cons y ys =>
      simp only [lexLe, Bool.or_eq_true, Bool.and_eq_true, decide_eq_true_eq]
      constructor
      · rintro (hlt | ⟨rfl, hle⟩)
        · intro hlex
          cases hlex with
          | rel h => exact absurd hlt (asymm h)
          | cons h => exact absurd hlt (lt_irrefl _)
        · intro hlex
          cases hlex with
          | rel h => exact absurd h (lt_irrefl _)
          | cons h => exact (ih ys).mp hle h
      · intro hnl
        rcases lt_trichotomy x y with hlt | rfl | hgt
        · exact Or.inl hlt
        · exact Or.inr ⟨rfl, (ih ys).mpr (fun h => hnl (List.Lex.cons h))⟩
        · exact absurd (List.Lex.rel hgt) hnl

theorem strLe_iff (a b : String) : strLe a b = true ↔ a ≤ b := by
  have h1 : (a ≤ b) ↔ ¬ b < a := Iff.rfl
  have h2 : (b < a) ↔ List.Lex (· < ·) b.toList a.toList := by
    rw [String.lt_iff_toList_lt]
    exact Iff.rfl
  rw [h1, h2]
  exact lexLe_iff_not_lex a.toList b.toList

theorem strLe_trans {a b c : String} (h1 : strLe a b = true) (h2 : strLe b c = true) :
    strLe a c = true :=
  (strLe_iff a c).mpr (le_trans ((strLe_iff a b).mp h1) ((strLe_iff b c).mp h2))

theorem strLe_total (a b : String) : strLe a b = true ∨ strLe b a = true := by
  rcases le_total a b with h | h
  · exact Or.inl ((strLe_iff a b).mpr h)
  · exact Or.inr ((strLe_iff b a).mpr h)

/-! ## Leftmost-match search: characterization of `scanFirst` -/

theorem scanFirst_eq_some_iff {α : Type} (m : List Char → Option α)
    (hnil : m [] = none) (cs : List Char) (x : α) :
    scanFirst m cs = some x ↔
      ∃ i, m (cs.drop i) = some x ∧ ∀ j < i, m (cs.drop j) = none := by
  induction cs with
  | nil =>
    simp only [scanFirst, List.drop_nil]
    constructor
    · intro h; cases h
    · rintro ⟨i, hi, -⟩
      rw [hnil] at hi; cases hi
  | cons c cs ih =>
    rcases hm : m (c :: cs) with - | y
    · have hstep : scanFirst m (c :: cs) = scanFirst m cs := by
        simp only [scanFirst, hm]
      rw [hstep, ih]
      constructor
      · rintro ⟨i, hi, hleft⟩
        refine ⟨i + 1, by simpa using hi, ?_⟩
        intro j hj
        cases j with
        | zero => simpa using hm
        | succ k => exact by simpa using hleft k (Nat.lt_of_succ_lt_succ hj)
      · rintro ⟨i, hi, hleft⟩
        cases i with
        | zero => simp only [List.drop_zero] at hi; rw [hi] at hm; cases hm
        | succ k =>
          refine ⟨k, by simpa using hi, ?_⟩
          intro j hj
          exact by simpa using hleft (j + 1) (Nat.succ_lt_succ hj)
    · have hstep : scanFirst m (c :: cs) = some y := by
        simp only [scanFirst, hm]
      rw [hstep]
      constructor
      · intro h
        exact ⟨0, by simpa using hm.trans h, by intro j hj; cases hj⟩
      · rintro ⟨i, hi, hleft⟩
        cases i with
        | zero => simp only [List.drop_zero] at hi; rw [hm] at hi; exact hi
        | succ k =>
          have := hleft 0 (Nat.succ_pos k)
          simp only [List.drop_zero] at this
          rw [hm] at this; cases this

theorem scanFirst_eq_none_iff {α : Type} (m : List Char → Option α)
    (cs : List Char) :
    scanFirst m cs = none ↔ ∀ i, i < cs.length → m (cs.drop i) = none := by
  induction cs with
  | nil => simp [scanFirst]
  | cons c cs ih =>
    rcases hm : m (c :: cs) with - | y
    · have hstep : scanFirst m (c :: cs) = scanFirst m cs := by
        simp only [scanFirst, hm]
      rw [hstep, ih]
      constructor
      · intro h i hi
        cases i with
        | zero => simpa using hm
        | succ k => exact by simpa using h k (Nat.lt_of_succ_lt_succ hi)
      · intro h i hi
        exact by simpa using h (i + 1) (Nat.succ_lt_succ hi)
    · have hstep : scanFirst m (c :: cs) = some y := by
        simp only [scanFirst, hm]
      rw [hstep]
      constructor
      · intro h; cases h
      · intro h
        have := h 0 (Nat.succ_pos _)
        simp only [List.drop_zero] at this
        rw [hm] at this; cases this

/-! ## Forcing lemmas: greedy runs and literals are determined by context -/

theorem takeWhile_dropWhile_append {p : Char → Bool} {a rest : List Char}
    (ha : ∀ c ∈ a, p c = true)
    (hr : ∀ c, rest.head? = some c → p c = false) :
    (a ++ rest).takeWhile p = a ∧ (a ++ rest).dropWhile p = rest := by
  induction a with
  | nil =>
    cases rest with
    | nil => simp
    | cons c t =>
      have := hr c rfl
      simp [List.takeWhile_cons, List.dropWhile_cons, this]
  | cons x xs ih =>
    have hx : p x = true := ha x (List.mem_cons_self _ _)
    have ih' := ih (fun c hc => ha c (List.mem_cons_of_mem _ hc))
    simp [List.takeWhile_cons, List.dropWhile_cons, hx, ih'.1, ih'.2]

theorem expectLit_append (l r : List Char) : expectLit l (l ++ r) = some r := by
  induction l with
  | nil => simp [expectLit]
  | cons c t ih => simp [expectLit, ih]

theorem expectLit_eq_some {l cs r : List Char} (h : expectLit l cs = some r) :
    cs = l ++ r := by
  induction l generalizing cs with
  | nil =>
    have : some cs = some r := by simpa [expectLit] using h
    simpa using Option.some.inj this
  | cons c t ih =>
    cases cs with
    | nil => cases h
    | cons x xs =>
      by_cases hx : x = c
      · subst hx
        simp only [expectLit, if_pos rfl] at h
        simpa using ih h
      · simp [expectLit, hx] at h

/-! ## The UUID pattern: scanner vs declarative shape -/

/-- All characters are lower-case hex digits. -/
def HexListLower (s : List Char) : Prop := ∀ c ∈ s, isHexLower c = true

/-- Declarative UUID shape from the specification: 32 hex digits grouped
8-4-4-4-12, hyphen-separated (here over the lowered name, so the hex digits
are lower-case). -/
def UuidShape (u : List Char) : Prop :=
  ∃ a b c d e : List Char,
    u = a ++ '-' :: (b ++ '-' :: (c ++ '-' :: (d ++ '-' :: e))) ∧
    a.length = 8 ∧ b.length = 4 ∧ c.length = 4 ∧ d.length = 4 ∧ e.length = 12 ∧
    HexListLower a ∧ HexListLower b ∧ HexListLower c ∧ HexListLower d ∧ HexListLower e

theorem UuidShape.length_eq {u : List Char} (h : UuidShape u) : u.length = 36 := by
  obtain ⟨a, b, c, d, e, rfl, ha, hb, hc, hd, he, -⟩ := h
  simp [ha, hb, hc, hd, he]

theorem hexRun_eq_some_iff (n : ℕ) (cs r : List Char) :
    hexRun n cs = some r ↔ ∃ a, cs = a ++ r ∧ a.length = n ∧ HexListLower a := by
  induction n generalizing cs with
  | zero =>
    simp only [hexRun]
    constructor
    · intro h
      refine ⟨[], ?_, rfl, fun c hc => absurd hc (List.not_mem_nil c)⟩
      simpa using Option.some.inj h
    · rintro ⟨a, rfl, ha, -⟩
      rw [List.length_eq_zero.mp ha]
      rfl
  | succ n ih =>
    cases cs with
    | nil =>
      constructor
      · intro h
        exact absurd h (by simp [hexRun])
      · rintro ⟨a, ha, hlen, -⟩
        exfalso
        cases a with
        | nil => simp at hlen
        | cons y ys => simp at ha
    | cons x xs =>
      by_cases hx : isHexLower x = true
      · rw [show hexRun (n + 1) (x :: xs) = hexRun n xs from by simp [hexRun, hx]]
        rw [ih]
        constructor
        · rintro ⟨a, rfl, hlen, ha⟩
          refine ⟨x :: a, rfl, by simp [hlen], ?_⟩
          intro c hc
          rcases List.mem_cons.mp hc with rfl | hc2
          · exact hx
          · exact ha c hc2
        · rintro ⟨a, ha, hlen, hhex⟩
          cases a with
          | nil => simp at hlen
          | cons y ys =>
            injection ha with h1 h2
            refine ⟨ys, h2, by simpa using hlen, ?_⟩
            intro c hc
            exact hhex c (List.mem_cons_of_mem _ hc)
      · constructor
        · intro h
          exact absurd h (by simp [hexRun, hx])
        · rintro ⟨a, ha, hlen, hhex⟩
          exfalso
          cases a with
          | nil => simp at hlen
          | cons y ys =>
            injection ha with h1 h2
            refine hx ?_
            rw [h1]
            exact hhex y (List.mem_cons_self y ys)

theorem dashRun_eq_some_iff (cs r : List Char) :
    dashRun cs = some r ↔ cs = '-' :: r := by
  cases cs with
  | nil =>
    constructor
    · intro h; cases h
    · intro h; cases h
  | cons x xs =>
    by_cases hx : x = '-'
    · subst hx
      rw [show dashRun ('-' :: xs) = some xs from by simp [dashRun]]
      constructor
      · intro h
        rw [Option.some.inj h]
      · intro h
        injection h with h1 h2
        rw [h2]
    · rw [show dashRun (x :: xs) = none from by simp [dashRun, hx]]
      constructor
      · intro h; cases h
      · intro h
        injection h with h1 h2
        exact absurd h1 hx

theorem dashRun_dash (t : List Char) : dashRun ('-' :: t) = some t := by
  simp [dashRun]

theorem hexRun_append {n : ℕ} {a : List Char} (t : List Char)
    (hlen : a.length = n) (ha : HexListLower a) : hexRun n (a ++ t) = some t :=
  (hexRun_eq_some_iff n (a ++ t) t).mpr ⟨a, rfl, hlen, ha⟩

theorem uuidHead_iff (cs : List Char) :
    uuidHead cs = true ↔ ∃ u rest, cs = u ++ rest ∧ UuidShape u := by
  constructor
  · intro h
    simp only [uuidHead, Option.isSome_iff_exists] at h
    obtain ⟨r9, h⟩ := h
    rcases Option.bind_eq_some.mp h with ⟨r8, h8, h9⟩
    rcases Option.bind_eq_some.mp h8 with ⟨r7, h7, hd8⟩
    rcases Option.bind_eq_some.mp h7 with ⟨r6, h6, h7x⟩
    rcases Option.bind_eq_some.mp h6 with ⟨r5, h5, hd6⟩
    rcases Option.bind_eq_some.mp h5 with ⟨r4, h4, h5x⟩
    rcases Option.bind_eq_some.mp h4 with ⟨r3, h3, hd4⟩
    rcases Option.bind_eq_some.mp h3 with ⟨r2, h2, h3x⟩
    rcases Option.bind_eq_some.mp h2 with ⟨r1, h1, hd2⟩
    obtain ⟨a, hcs, ha8, hah⟩ := (hexRun_eq_some_iff _ _ _).mp h1
    have hr1 := (dashRun_eq_some_iff _ _).mp hd2
    obtain ⟨b, hb, hb4, hbh⟩ := (hexRun_eq_some_iff _ _ _).mp h3x
    have hr3 := (dashRun_eq_some_iff _ _).mp hd4
    obtain ⟨c, hc, hc4, hch⟩ := (hexRun_eq_some_iff _ _ _).mp h5x
    have hr5 := (dashRun_eq_some_iff _ _).mp hd6
    obtain ⟨d, hd, hd4x, hdh⟩ := (hexRun_eq_some_iff _ _ _).mp h7x
    have hr7 := (dashRun_eq_some_iff _ _).mp hd8
    obtain ⟨e, he, he12, heh⟩ := (hexRun_eq_some_iff _ _ _).mp h9
    refine ⟨a ++ '-' :: (b ++ '-' :: (c ++ '-' :: (d ++ '-' :: e))), r9, ?_, ?_⟩
    · rw [hcs, hr1, hb, hr3, hc, hr5, hd, hr7, he]
      simp
    · exact ⟨a, b, c, d, e, rfl, ha8, hb4, hc4, hd4x, he12, hah, hbh, hch, hdh, heh⟩
  · rintro ⟨u, rest, rfl, a, b, c, d, e, rfl, ha, hb, hc, hd, he, hah, hbh, hch, hdh, heh⟩
    simp only [uuidHead]
    have e1 : (a ++ '-' :: (b ++ '-' :: (c ++ '-' :: (d ++ '-' :: e)))) ++ rest =
        a ++ '-' :: (b ++ '-' :: (c ++ '-' :: (d ++ '-' :: (e ++ rest)))) := by
      simp
    rw [e1, hexRun_append _ ha hah, Option.some_bind, dashRun_dash, Option.some_bind,
      hexRun_append _ hb hbh, Option.some_bind, dashRun_dash, Option.some_bind,
      hexRun_append _ hc hch, Option.some_bind, dashRun_dash, Option.some_bind,
      hexRun_append _ hd hdh, Option.some_bind, dashRun_dash, Option.some_bind,
      hexRun_append _ he heh]
    rfl

/-- Position `i` of the input starts a UUID-shaped substring. -/
def UuidAt (cs : List Char) (i : ℕ) : Prop :=
  ∃ u rest, cs.drop i = u ++ rest ∧ UuidShape u

theorem uuidMatch_eq_some_iff (cs u : List Char) :
    uuidMatch cs = some u ↔ (∃ rest, cs = u ++ rest ∧ UuidShape u) := by
  unfold uuidMatch
  by_cases h : uuidHead cs = true
  · rw [if_pos h]
    obtain ⟨u0, rest0, hcs, hsh⟩ := (uuidHead_iff cs).mp h
    constructor
    · intro he
      have hu : u = cs.take 36 := (Option.some.inj he).symm
      have htake : cs.take 36 = u0 := by
        rw [hcs, ← hsh.length_eq]
        exact List.take_left u0 rest0
      refine ⟨rest0, ?_, ?_⟩
      · rw [hu, htake]; exact hcs
      · rw [hu, htake]; exact hsh
    · rintro ⟨rest, hcs2, hsh2⟩
      have : cs.take 36 = u := by
        rw [hcs2, ← hsh2.length_eq]
        exact List.take_left u rest
      rw [this]
  · rw [if_neg h]
    constructor
    · intro he; cases he
    · rintro ⟨rest, hcs2, hsh2⟩
      exact absurd ((uuidHead_iff cs).mpr ⟨u, rest, hcs2, hsh2⟩) h

theorem uuidMatch_eq_none_iff (cs : List Char) :
    uuidMatch cs = none ↔ ¬ ∃ u rest, cs = u ++ rest ∧ UuidShape u := by
  constructor
  · intro h hex
    obtain ⟨u, rest, hcs, hsh⟩ := hex
    rw [(uuidMatch_eq_some_iff cs u).mpr ⟨rest, hcs, hsh⟩] at h
    cases h
  · intro h
    rcases he : uuidMatch cs with - | u
    · rfl
    · obtain ⟨rest, hcs, hsh⟩ := (uuidMatch_eq_some_iff cs u).mp he
      exact absurd ⟨u, rest, hcs, hsh⟩ h

theorem findUuid_eq_some_iff (cs u : List Char) :
    findUuid cs = some u ↔
      ∃ i, (∃ rest, cs.drop i = u ++ rest ∧ UuidShape u) ∧
        ∀ j < i, ¬ UuidAt cs j := by
  unfold findUuid
  rw [scanFirst_eq_some_iff uuidMatch (by rfl) cs u]
  constructor
  · rintro ⟨i, hi, hleft⟩
    refine ⟨i, (uuidMatch_eq_some_iff _ _).mp hi, ?_⟩
    intro j hj hat
    obtain ⟨u0, rest0, hd, hsh⟩ := hat
    have hnone := hleft j hj
    rw [(uuidMatch_eq_some_iff _ _).mpr ⟨rest0, hd, hsh⟩] at hnone
    cases hnone
  · rintro ⟨i, hi, hleft⟩
    refine ⟨i, (uuidMatch_eq_some_iff _ _).mpr hi, ?_⟩
    intro j hj
    rcases hm : uuidMatch (cs.drop j) with - | u0
    · rfl
    · obtain ⟨rest0, hd, hsh⟩ := (uuidMatch_eq_some_iff _ _).mp hm
      exact absurd ⟨u0, rest0, hd, hsh⟩ (hleft j hj)

theorem findUuid_eq_none_iff (cs : List Char) :
    findUuid cs = none ↔ ∀ i, ¬ UuidAt cs i := by
  unfold findUuid
  rw [scanFirst_eq_none_iff uuidMatch cs]
  constructor
  · intro h i hat
    obtain ⟨u, rest, hd, hsh⟩ := hat
    by_cases hi : i < cs.length
    · have hnone := h i hi
      rw [(uuidMatch_eq_some_iff _ _).mpr ⟨rest, hd, hsh⟩] at hnone
      cases hnone
    · have hnil : cs.drop i = [] := List.drop_eq_nil_of_le (Nat.le_of_not_lt hi)
      rw [hnil] at hd
      have hu : u = [] := by
        cases u with
        | nil => rfl
        | cons x xs => cases hd
      rw [hu] at hsh
      have h36 := hsh.length_eq
      cases h36
  · intro h i hi
    rcases hm : uuidMatch (cs.drop i) with - | u0
    · rfl
    · obtain ⟨rest0, hd, hsh⟩ := (uuidMatch_eq_some_iff _ _).mp hm
      exact absurd ⟨u0, rest0, hd, hsh⟩ (h i)

/-! ## The TOTAL COSTS pattern: scanner vs declarative decomposition -/

/-- All characters are ASCII whitespace (`\\s*` content). -/
def WsList (w : List Char) : Prop := ∀ c ∈ w, isPySpace c = true

/-- Declarative shape of one captured monetary group `[\\d,]+\\.\\d+`: a
nonempty run of digits and commas, a dot, a nonempty run of digits. -/
def FigStr (g : List Char) : Prop :=
  ∃ a b : List Char, g = a ++ '.' :: b ∧ a ≠ [] ∧ b ≠ [] ∧
    (∀ c ∈ a, isDigComma c = true) ∧ (∀ c ∈ b, isDigitC c = true)

/-- Declarative decomposition of a match of the whole TOTAL COSTS pattern at
the head of the input, directly transcribing the regex
`\\|\\s*TOTAL COSTS\\s*\\|\\s*([\\d,]+\\.\\d+)\\s*EUR\\s*\\|\\s*([\\d,]+\\.\\d+)\\s*EUR`
with captured groups `g1` and `g2`. -/
def RowFrom (cs g1 g2 : List Char) : Prop :=
  ∃ w1 w2 w3 w4 w5 w6 w7 rest : List Char,
    WsList w1 ∧ WsList w2 ∧ WsList w3 ∧ WsList w4 ∧ WsList w5 ∧ WsList w6 ∧ WsList w7 ∧
    FigStr g1 ∧ FigStr g2 ∧
    cs = '|' :: (w1 ++ (totalCostsLit ++ (w2 ++ '|' :: (w3 ++ (g1 ++ (w4 ++ (eurLit ++
      (w5 ++ '|' :: (w6 ++ (g2 ++ (w7 ++ (eurLit ++ rest))))))))))))

/-- The pattern matches starting at position `i`, with groups `g1`, `g2`. -/
def RowAt (cs : List Char) (i : ℕ) (g1 g2 : List Char) : Prop :=
  RowFrom (cs.drop i) g1 g2

theorem head_eq_of_cons_append {x : Char} {t r : List Char} {c : Char}
    (hc : ((x :: t) ++ r).head? = some c) : c = x := by
  simpa using hc.symm

theorem figStr_head_not_space {g r : List Char} (hg : FigStr g) :
    ∀ c, (g ++ r).head? = some c → isPySpace c = false := by
  obtain ⟨a, b, rfl, hane, -, hadc, -⟩ := hg
  cases a with
  | nil => exact absurd rfl hane
  | cons x t =>
    intro c hc
    have hcx : c = x := by simpa using hc.symm
    rw [hcx]
    exact not_space_of_digComma (hadc x (List.mem_cons_self x t))

theorem ws_eur_head_not {w r : List Char} (hw : WsList w) :
    ∀ c, (w ++ (eurLit ++ r)).head? = some c →
      isDigComma c = false ∧ isDigitC c = false := by
  intro c hc
  cases w with
  | nil =>
    have hcE : c = 'E' := by simpa [eurLit] using hc.symm
    rw [hcE]
    exact ⟨by decide, by decide⟩
  | cons x t =>
    have hcx : c = x := by simpa using hc.symm
    rw [hcx]
    have hx := hw x (List.mem_cons_self x t)
    exact ⟨not_digComma_of_space hx, not_digit_of_space hx⟩

theorem grabFig_append {g rest : List Char} (hg : FigStr g)
    (h2 : ∀ c, rest.head? = some c → isDigitC c = false) :
    grabFig (g ++ rest) = some (g, rest) := by
  obtain ⟨a, b, rfl, hane, hbne, hadc, hbd⟩ := hg
  have e1 : (a ++ '.' :: b) ++ rest = a ++ ('.' :: (b ++ rest)) := by simp
  rw [e1]
  have hdot : ∀ c, ('.' :: (b ++ rest)).head? = some c → isDigComma c = false := by
    intro c hc
    have : c = '.' := by simpa using hc.symm
    rw [this]; decide
  have htw := takeWhile_dropWhile_append (p := isDigComma) hadc hdot
  have hbrest : ∀ c, rest.head? = some c → isDigitC c = false := h2
  have htw2 := takeWhile_dropWhile_append (p := isDigitC) hbd hbrest
  have hae : a.isEmpty = false := by
    cases a with
    | nil => exact absurd rfl hane
    | cons x t => rfl
  have hbe : b.isEmpty = false := by
    cases b with
    | nil => exact absurd rfl hbne
    | cons x t => rfl
  unfold grabFig
  rw [htw.1, htw.2]
  simp only [hae, Bool.false_eq_true, if_false, htw2.1, htw2.2, hbe, if_true]

theorem split_dropWhile (p : Char → Bool) (l t : List Char)
    (h : l.dropWhile p = t) : l = l.takeWhile p ++ t := by
  conv_lhs => rw [← List.takeWhile_append_dropWhile p l]
  rw [h]

theorem tc_head_not_space (c : Char) (r : List Char)
    (hc : (totalCostsLit ++ r).head? = some c) : isPySpace c = false := by
  have : c = 'T' := by simpa [totalCostsLit] using hc.symm
  rw [this]; decide

theorem eur_head_not_space (c : Char) (r : List Char)
    (hc : (eurLit ++ r).head? = some c) : isPySpace c = false := by
  have : c = 'E' := by simpa [eurLit] using hc.symm
  rw [this]; decide

theorem pipe_head_not_space (c : Char) (r : List Char)
    (hc : ('|' :: r).head? = some c) : isPySpace c = false := by
  have : c = '|' := by simpa using hc.symm
  rw [this]; decide

theorem grabFig_eq_some {cs g rest : List Char}
    (h : grabFig cs = some (g, rest)) : FigStr g ∧ cs = g ++ rest := by
  unfold grabFig at h
  by_cases hae : (cs.takeWhile isDigComma).isEmpty
  · rw [if_pos hae] at h; cases h
  · rw [if_neg hae] at h
    rcases hdw : cs.dropWhile isDigComma with - | ⟨c, r⟩
    · rw [hdw] at h; cases h
    · rw [hdw] at h
      dsimp only at h
      by_cases hc : c = '.'
      · subst hc
        rw [if_pos rfl] at h
        by_cases hbe : (r.takeWhile isDigitC).isEmpty
        · rw [if_pos hbe] at h; cases h
        · rw [if_neg hbe] at h
          have h' := Option.some.inj h
          rw [Prod.mk.injEq] at h'
          obtain ⟨hg, hrest⟩ := h'
          have hane : cs.takeWhile isDigComma ≠ [] := by
            intro hnil
            rw [hnil] at hae
            exact hae rfl
          have hbne : r.takeWhile isDigitC ≠ [] := by
            intro hnil
            rw [hnil] at hbe
            exact hbe rfl
          constructor
          · refine ⟨cs.takeWhile isDigComma, r.takeWhile isDigitC, hg.symm, hane, hbne,
              ?_, ?_⟩
            · intro x hx
              exact List.mem_takeWhile_imp hx
            · intro x hx
              exact List.mem_takeWhile_imp hx
          · have e1 : cs = cs.takeWhile isDigComma ++ ('.' :: r) :=
              split_dropWhile isDigComma cs ('.' :: r) hdw
            have e2 : r = r.takeWhile isDigitC ++ rest :=
              split_dropWhile isDigitC r rest hrest
            rw [e1]
            conv_lhs => rw [e2]
            rw [← hg]
            simp
      · rw [if_neg hc] at h; cases h

theorem rowFromHead_eq_some_of {cs g1 g2 : List Char}
    (h : rowFromHead cs = some (g1, g2)) : RowFrom cs g1 g2 := by
  unfold rowFromHead at h
  rcases cs with - | ⟨c0, r0⟩
  · cases h
  · dsimp only at h
    by_cases hc0 : c0 = '|'
    · subst hc0
      rw [if_pos rfl] at h
      rcases hel : expectLit totalCostsLit (r0.dropWhile isPySpace) with - | r1 <;>
        rw [hel] at h
      · cases h
      dsimp only at h
      rcases hd1 : r1.dropWhile isPySpace with - | ⟨c1, r2⟩ <;> rw [hd1] at h
      · cases h
      dsimp only at h
      by_cases hc1 : c1 = '|'
      case neg => rw [if_neg hc1] at h; cases h
      subst hc1
      rw [if_pos rfl] at h
      rcases hgf1 : grabFig (r2.dropWhile isPySpace) with - | ⟨g1x, r3⟩ <;>
        rw [hgf1] at h
      · cases h
      dsimp only at h
      rcases hel2 : expectLit eurLit (r3.dropWhile isPySpace) with - | r4 <;>
        rw [hel2] at h
      · cases h
      dsimp only at h
      rcases hd2 : r4.dropWhile isPySpace with - | ⟨c2, r5⟩ <;> rw [hd2] at h
      · cases h
      dsimp only at h
      by_cases hc2 : c2 = '|'
      case neg => rw [if_neg hc2] at h; cases h
      subst hc2
      rw [if_pos rfl] at h
      rcases hgf2 : grabFig (r5.dropWhile isPySpace) with - | ⟨g2x, r6⟩ <;>
        rw [hgf2] at h
      · cases h
      dsimp only at h
      rcases hel3 : expectLit eurLit (r6.dropWhile isPySpace) with - | r7 <;>
        rw [hel3] at h
      · cases h
      dsimp only at h
      have h' := Option.some.inj h
      rw [Prod.mk.injEq] at h'
      obtain ⟨hg1, hg2⟩ := h'
      subst hg1
      subst hg2
      obtain ⟨hfig1, hsplit1⟩ := grabFig_eq_some hgf1
      obtain ⟨hfig2, hsplit2⟩ := grabFig_eq_some hgf2
      refine ⟨r0.takeWhile isPySpace, r1.takeWhile isPySpace, r2.takeWhile isPySpace,
        r3.takeWhile isPySpace, r4.takeWhile isPySpace, r5.takeWhile isPySpace,
        r6.takeWhile isPySpace, r7,
        fun c hc => List.mem_takeWhile_imp hc, fun c hc => List.mem_takeWhile_imp hc,
        fun c hc => List.mem_takeWhile_imp hc, fun c hc => List.mem_takeWhile_imp hc,
        fun c hc => List.mem_takeWhile_imp hc, fun c hc => List.mem_takeWhile_imp hc,
        fun c hc => List.mem_takeWhile_imp hc, hfig1, hfig2, ?_⟩
      have e0 : r0 = r0.takeWhile isPySpace ++ (totalCostsLit ++ r1) :=
        split_dropWhile isPySpace r0 _ (expectLit_eq_some hel)
      have e1 : r1 = r1.takeWhile isPySpace ++ ('|' :: r2) :=
        split_dropWhile isPySpace r1 _ hd1
      have e2 : r2 = r2.takeWhile isPySpace ++ (g1x ++ r3) :=
        split_dropWhile isPySpace r2 _ hsplit1
      have e3 : r3 = r3.takeWhile isPySpace ++ (eurLit ++ r4) :=
        split_dropWhile isPySpace r3 _ (expectLit_eq_some hel2)
      have e4 : r4 = r4.takeWhile isPySpace ++ ('|' :: r5) :=
        split_dropWhile isPySpace r4 _ hd2
      have e5 : r5 = r5.takeWhile isPySpace ++ (g2x ++ r6) :=
        split_dropWhile isPySpace r5 _ hsplit2
      have e6 : r6 = r6.takeWhile isPySpace ++ (eurLit ++ r7) :=
        split_dropWhile isPySpace r6 _ (expectLit_eq_some hel3)
      generalize hw1 : r0.takeWhile isPySpace = w1 at e0 ⊢
      generalize hw2 : r1.takeWhile isPySpace = w2 at e1 ⊢
      generalize hw3 : r2.takeWhile isPySpace = w3 at e2 ⊢
      generalize hw4 : r3.takeWhile isPySpace = w4 at e3 ⊢
      generalize hw5 : r4.takeWhile isPySpace = w5 at e4 ⊢
      generalize hw6 : r5.takeWhile isPySpace = w6 at e5 ⊢
      generalize hw7 : r6.takeWhile isPySpace = w7 at e6 ⊢
      rw [e0, e1, e2, e3, e4, e5, e6]
    · rw [if_neg hc0] at h
      cases h

theorem rowFromHead_of_RowFrom {cs g1 g2 : List Char} (h : RowFrom cs g1 g2) :
    rowFromHead cs = some (g1, g2) := by
  obtain ⟨w1, w2, w3, w4, w5, w6, w7, rest, hw1, hw2, hw3, hw4, hw5, hw6, hw7,
    hf1, hf2, rfl⟩ := h
  have d1 : ∀ t : List Char,
      (w1 ++ (totalCostsLit ++ t)).dropWhile isPySpace = totalCostsLit ++ t :=
    fun t => (takeWhile_dropWhile_append hw1 (fun c hc => tc_head_not_space c t hc)).2
  have dp : ∀ w : List Char, WsList w → ∀ t : List Char,
      (w ++ '|' :: t).dropWhile isPySpace = '|' :: t :=
    fun w hw t => (takeWhile_dropWhile_append hw (fun c hc => pipe_head_not_space c t hc)).2
  have de : ∀ w : List Char, WsList w → ∀ t : List Char,
      (w ++ (eurLit ++ t)).dropWhile isPySpace = eurLit ++ t :=
    fun w hw t => (takeWhile_dropWhile_append hw (fun c hc => eur_head_not_space c t hc)).2
  have d3 : ∀ t : List Char, (w3 ++ (g1 ++ t)).dropWhile isPySpace = g1 ++ t :=
    fun t => (takeWhile_dropWhile_append hw3 (fun c hc => figStr_head_not_space hf1 c hc)).2
  have d6 : ∀ t : List Char, (w6 ++ (g2 ++ t)).dropWhile isPySpace = g2 ++ t :=
    fun t => (takeWhile_dropWhile_append hw6 (fun c hc => figStr_head_not_space hf2 c hc)).2
  have gf1 : ∀ t : List Char, grabFig (g1 ++ (w4 ++ (eurLit ++ t))) =
      some (g1, w4 ++ (eurLit ++ t)) :=
    fun t => grabFig_append hf1 (fun c hc => (ws_eur_head_not hw4 c hc).2)
  have gf2 : ∀ t : List Char, grabFig (g2 ++ (w7 ++ (eurLit ++ t))) =
      some (g2, w7 ++ (eurLit ++ t)) :=
    fun t => grabFig_append hf2 (fun c hc => (ws_eur_head_not hw7 c hc).2)
  unfold rowFromHead
  dsimp only
  rw [if_pos rfl, d1 _, expectLit_append]
  dsimp only
  rw [dp w2 hw2 _]
  dsimp only
  rw [if_pos rfl, d3 _, gf1 _]
  dsimp only
  rw [de w4 hw4 _, expectLit_append]
  dsimp only
  rw [dp w5 hw5 _]
  dsimp only
  rw [if_pos rfl, d6 _, gf2 _]
  dsimp only
  rw [de w7 hw7 _, expectLit_append]

theorem rowFromHead_iff (cs g1 g2 : List Char) :
    rowFromHead cs = some (g1, g2) ↔ RowFrom cs g1 g2 :=
  ⟨rowFromHead_eq_some_of, rowFromHead_of_RowFrom⟩

theorem searchRow_eq_some_iff (cs : List Char) (g1 g2 : List Char) :
    searchRow cs = some (g1, g2) ↔
      ∃ i, RowAt cs i g1 g2 ∧ ∀ j < i, ∀ h1 h2, ¬ RowAt cs j h1 h2 := by
  unfold searchRow
  rw [scanFirst_eq_some_iff rowFromHead (by rfl) cs (g1, g2)]
  constructor
  · rintro ⟨i, hi, hleft⟩
    refine ⟨i, rowFromHead_eq_some_of hi, ?_⟩
    intro j hj h1 h2 hrow
    have hnone := hleft j hj
    rw [rowFromHead_of_RowFrom hrow] at hnone
    cases hnone
  · rintro ⟨i, hi, hleft⟩
    refine ⟨i, rowFromHead_of_RowFrom hi, ?_⟩
    intro j hj
    rcases hm : rowFromHead (List.drop j cs) with - | ⟨h1, h2⟩
    · rfl
    · exact absurd (rowFromHead_eq_some_of hm) (hleft j hj h1 h2)

theorem searchRow_eq_none_iff (cs : List Char) :
    searchRow cs = none ↔ ∀ i g1 g2, ¬ RowAt cs i g1 g2 := by
  unfold searchRow
  rw [scanFirst_eq_none_iff rowFromHead cs]
  constructor
  · intro h i g1 g2 hrow
    by_cases hi : i < cs.length
    · have hnone := h i hi
      rw [rowFromHead_of_RowFrom hrow] at hnone
      cases hnone
    · have hnil : cs.drop i = [] := List.drop_eq_nil_of_le (Nat.le_of_not_lt hi)
      unfold RowAt at hrow
      rw [hnil] at hrow
      obtain ⟨a, b, c, d, e, f, g, r, -, -, -, -, -, -, -, -, -, hbad⟩ := hrow
      cases hbad
  · intro h i hi
    rcases hm : rowFromHead (List.drop i cs) with - | ⟨h1, h2⟩
    · rfl
    · exact absurd (rowFromHead_eq_some_of hm) (h i h1 h2)

/-! ## Evaluating `float` on captured figures -/

theorem takeWhile_all_dropWhile_nil {p : Char → Bool} {l : List Char}
    (h : ∀ c ∈ l, p c = true) : l.takeWhile p = l ∧ l.dropWhile p = [] := by
  have := @takeWhile_dropWhile_append p l [] h (fun c hc => by cases hc)
  simpa using this

/-- Numeric value of a captured figure after comma-stripping: digits of the
integer part and fraction concatenated, divided by ten to the fraction
length. -/
def figValQ (g : List Char) : ℚ :=
  let a := g.takeWhile (fun c => decide (c ≠ '.'))
  let b := (g.dropWhile (fun c => decide (c ≠ '.'))).drop 1
  (digitsVal (stripCommas a ++ b) : ℚ) / 10 ^ b.length

theorem stripCommas_figure {a b : List Char} (hb : ∀ c ∈ b, isDigitC c = true) :
    stripCommas (a ++ '.' :: b) = stripCommas a ++ '.' :: b := by
  have hcomma : ∀ c ∈ b, (fun c => decide (c ≠ ',')) c = true := by
    intro c hc
    have h9 : '0' ≤ c ∧ c ≤ '9' := by simpa [isDigitC] using hb c hc
    simp only [ne_eq, decide_eq_true_eq]
    intro hcc
    rw [hcc] at h9
    revert h9
    decide
  unfold stripCommas
  rw [List.filter_append, List.filter_cons, List.filter_eq_self.mpr hcomma]
  simp

theorem stripCommas_digits {a : List Char} (ha : ∀ c ∈ a, isDigComma c = true) :
    ∀ c ∈ stripCommas a, isDigitC c = true := by
  intro c hc
  rw [stripCommas, List.mem_filter] at hc
  obtain ⟨hmem, hne⟩ := hc
  have := ha c hmem
  rcases (by simpa [isDigComma] using this : isDigitC c = true ∨ c = ',') with hd | rfl
  · exact hd
  · simp at hne

theorem pyFloatRaw_digits_dot {d b : List Char}
    (hd : ∀ c ∈ d, isDigitC c = true) (hb : b ≠ [])
    (hbd : ∀ c ∈ b, isDigitC c = true) :
    pyFloatRaw (d ++ '.' :: b) = some (false, digitsVal (d ++ b), b.length, 0) := by
  have hdotdig : ∀ c, ('.' :: b).head? = some c → isDigitC c = false := by
    intro c hc
    have : c = '.' := by simpa using hc.symm
    rw [this]; decide
  have htw := takeWhile_dropWhile_append (p := isDigitC) hd hdotdig
  have htb := takeWhile_all_dropWhile_nil hbd
  have hsign : ∀ s1 : List Char, d ++ '.' :: b = s1 →
      (match s1 with
        | c :: r => if c = '+' then (false, r) else if c = '-' then (true, r)
          else (false, d ++ '.' :: b)
        | [] => (false, d ++ '.' :: b)) = (false, d ++ '.' :: b) := by
    intro s1 hs1
    cases d with
    | nil =>
      subst hs1
      simp only [List.nil_append]
      rw [if_neg (by decide), if_neg (by decide)]
    | cons x xs =>
      subst hs1
      simp only [List.cons_append]
      have hx := hd x (List.mem_cons_self x xs)
      have hxp : ¬ x = '+' := by
        intro hcc; rw [hcc] at hx; revert hx; decide
      have hxm : ¬ x = '-' := by
        intro hcc; rw [hcc] at hx; revert hx; decide
      rw [if_neg hxp, if_neg hxm]
  have hbne : b.isEmpty = false := by
    cases b with
    | nil => exact absurd rfl hb
    | cons x t => rfl
  unfold pyFloatRaw
  rw [hsign _ rfl]
  dsimp only
  rw [htw.1, htw.2]
  dsimp only
  rw [if_pos rfl, htb.1, htb.2]
  simp [hbne]

theorem pyFloatParse_digits_dot {d b : List Char}
    (hd : ∀ c ∈ d, isDigitC c = true) (hb : b ≠ [])
    (hbd : ∀ c ∈ b, isDigitC c = true) :
    pyFloatParse (d ++ '.' :: b) = some ((digitsVal (d ++ b) : ℚ) / 10 ^ b.length) := by
  unfold pyFloatParse
  rw [pyFloatRaw_digits_dot hd hb hbd]
  simp

theorem pyFloatParse_stripCommas_fig {g : List Char} (hg : FigStr g) :
    pyFloatParse (stripCommas g) = some (figValQ g) := by
  obtain ⟨a, b, rfl, hane, hbne, hadc, hbd⟩ := hg
  rw [stripCommas_figure hbd]
  rw [pyFloatParse_digits_dot (stripCommas_digits hadc) hbne hbd]
  have hnd : ∀ c ∈ a, (fun c => decide (c ≠ '.')) c = true := by
    intro c hc
    have hdc := hadc c hc
    simp only [ne_eq, decide_eq_true_eq]
    intro hcc
    rw [hcc] at hdc
    revert hdc
    decide
  have hhd : ∀ c, ('.' :: b).head? = some c → (fun c => decide (c ≠ '.')) c = false := by
    intro c hc
    have : c = '.' := by simpa using hc.symm
    rw [this]
    simp
  have ht := takeWhile_dropWhile_append hnd hhd
  unfold figValQ
  rw [ht.1, ht.2]
  simp

/-! ## The subscription mapping: dict operations -/

theorem lookupSub_nil (sid : String) : lookupSub [] sid = none := rfl

theorem lookupSub_setSub_self (st : SubMap) (sid : String) (r : SubRecord) :
    lookupSub (setSub st sid r) sid = some r := by
  induction st with
  | nil => simp [setSub, lookupSub]
  | cons kv rest ih =>
    by_cases h : kv.1 = sid
    · simp [setSub, h, lookupSub]
    · simp only [setSub, if_neg h]
      simp only [lookupSub, List.find?] at ih ⊢
      rw [show (decide (kv.1 = sid)) = false by simpa using h]
      exact ih

theorem lookupSub_setSub_ne (st : SubMap) (sid sid' : String) (r : SubRecord)
    (h : sid' ≠ sid) :
    lookupSub (setSub st sid r) sid' = lookupSub st sid' := by
  have hne : ¬ (sid = sid') := fun hc => h hc.symm
  induction st with
  | nil => simp [setSub, lookupSub, List.find?, hne]
  | cons kv rest ih =>
    by_cases hk : kv.1 = sid
    · have hk' : ¬ (kv.1 = sid') := by
        intro hc
        exact h (by rw [← hc, hk])
      simp only [setSub, if_pos hk]
      simp only [lookupSub, List.find?]
      rw [show (decide (sid = sid')) = false from by simpa using hne]
      rw [show (decide (kv.1 = sid')) = false from by simpa using hk']
    · simp only [setSub, if_neg hk]
      simp only [lookupSub, List.find?] at ih ⊢
      cases hdec : decide (kv.1 = sid') with
      | true => rfl
      | false => exact ih

theorem getOr_setSub_self (st : SubMap) (sid : String) (r : SubRecord) :
    getOr (setSub st sid r) sid = r := by
  simp [getOr, lookupSub_setSub_self]

theorem setSub_setSub (st : SubMap) (sid : String) (r1 r2 : SubRecord) :
    setSub (setSub st sid r1) sid r2 = setSub st sid r2 := by
  induction st with
  | nil => simp [setSub]
  | cons kv rest ih =>
    by_cases h : kv.1 = sid
    · simp [setSub, h]
    · simp [setSub, h, ih]

theorem setSub_ne_nil (st : SubMap) (sid : String) (r : SubRecord) :
    setSub st sid r ≠ [] := by
  cases st with
  | nil => simp [setSub]
  | cons kv rest =>
    by_cases h : kv.1 = sid
    · simp [setSub, h]
    · simp [setSub, h]

theorem lookupSub_isSome_setSub (st : SubMap) (sid k : String) (r : SubRecord)
    (h : (lookupSub st sid).isSome = true) :
    (lookupSub (setSub st k r) sid).isSome = true := by
  by_cases hk : sid = k
  · subst hk
    rw [lookupSub_setSub_self]
    rfl
  · rw [lookupSub_setSub_ne st k sid r hk]
    exact h

/-! ## Per-period resolution of one diff file

`novResolve`/`decResolve` describe what the loop body of
`process_all_files` does to one period of the current record: structured
sibling value and path when the sibling exists and parses, unchanged when it
exists but yields `None`, the uncaught exception when parsing raises,
fallback value (no path) when no sibling exists and the fallback is usable,
unchanged otherwise. -/

def novResolve (fs : FS) (ndn : Option String) (scn : Option ℚ) (r : SubRecord) :
    Except PyExn SubRecord :=
  match ndn with
  | some jp =>
    match parse_json_cost_file fs jp with
    | .error e => .error e
    | .ok (some v) =>
      .ok { r with november := { r.november with total := v, file := some jp } }
    | .ok none => .ok r
  | none =>
    match scn with
    | some v => .ok { r with november := { r.november with total := v } }
    | none => .ok r

def decResolve (fs : FS) (ndd : Option String) (sct : Option ℚ) (r : SubRecord) :
    Except PyExn SubRecord :=
  match ndd with
  | some jp =>
    match parse_json_cost_file fs jp with
    | .error e => .error e
    | .ok (some v) =>
      .ok { r with december := { r.december with total := v, file := some jp } }
    | .ok none => .ok r
  | none =>
    match sct with
    | some v => .ok { r with december := { r.december with total := v } }
    | none => .ok r

theorem ok_bind {α β : Type} (a : α) (f : α → Except PyExn β) :
    (Except.ok a : Except PyExn α) >>= f = f a := rfl

theorem error_bind {α β : Type} (e : PyExn) (f : α → Except PyExn β) :
    (Except.error e : Except PyExn α) >>= f = Except.error e := rfl

theorem processFile_none {fs : FS} {st : SubMap} {f : FileEntry}
    (h : extract_subscription_id f.name = none) : processFile fs st f = .ok st := by
  simp [processFile, h]

theorem processFile_some (fs : FS) (st : SubMap) (f : FileEntry) (k : String)
    (hk : extract_subscription_id f.name = some k) :
    processFile fs st f =
      (novResolve fs (find_related_json_files fs f k).1
          (parse_diff_text_file fs (pathOf f)).1
          { getOr st k with diff_file := some (pathOf f) }).bind
        (fun r1 =>
          (decResolve fs (find_related_json_files fs f k).2
              (parse_diff_text_file fs (pathOf f)).2 r1).map
            (fun r2 => setSub st k r2)) := by
  rcases hnd : find_related_json_files fs f k with ⟨nd1, nd2⟩
  rcases hsc : parse_diff_text_file fs (pathOf f) with ⟨sc1, sc2⟩
  unfold processFile
  rw [hk]
  dsimp only
  rw [hnd, hsc]
  dsimp only
  rcases nd1 with - | nf
  · rcases nd2 with - | df
    · rcases sc1 with - | v1 <;> rcases sc2 with - | v2 <;>
        simp [novResolve, decResolve, updateSub, getOr_setSub_self, setSub_setSub,
          Except.bind, Except.map, pure, Except.pure, ok_bind, error_bind]
    · rcases sc1 with - | v1 <;> rcases hdf : parse_json_cost_file fs df with e | c <;>
        try rcases c with - | v2
      all_goals
        simp [novResolve, decResolve, updateSub, getOr_setSub_self, setSub_setSub,
          Except.bind, Except.map, pure, Except.pure, ok_bind, error_bind, hdf]
  · rcases hnf : parse_json_cost_file fs nf with e | c
    · rcases nd2 with - | df <;>
        simp [novResolve, decResolve, updateSub, getOr_setSub_self, setSub_setSub,
          Except.bind, Except.map, pure, Except.pure, ok_bind, error_bind, hnf]
    · rcases c with - | v1 <;> rcases nd2 with - | df
      · rcases sc2 with - | v2 <;>
          simp [novResolve, decResolve, updateSub, getOr_setSub_self, setSub_setSub,
            Except.bind, Except.map, pure, Except.pure, ok_bind, error_bind, hnf]
      · rcases hdf : parse_json_cost_file fs df with e | c2 <;> try rcases c2 with - | v2
        all_goals
          simp [novResolve, decResolve, updateSub, getOr_setSub_self, setSub_setSub,
            Except.bind, Except.map, pure, Except.pure, ok_bind, error_bind, hnf, hdf]
      · rcases sc2 with - | v2 <;>
          simp [novResolve, decResolve, updateSub, getOr_setSub_self, setSub_setSub,
            Except.bind, Except.map, pure, Except.pure, ok_bind, error_bind, hnf]
      · rcases hdf : parse_json_cost_file fs df with e | c2 <;> try rcases c2 with - | v2
        all_goals
          simp [novResolve, decResolve, updateSub, getOr_setSub_self, setSub_setSub,
            Except.bind, Except.map, pure, Except.pure, ok_bind, error_bind, hnf, hdf]

/-! ## Except helpers and the fold over discovered files -/

theorem except_bind_ok {α β : Type} (a : α) (f : α → Except PyExn β) :
    (Except.ok a : Except PyExn α).bind f = f a := rfl

theorem except_bind_error {α β : Type} (e : PyExn) (f : α → Except PyExn β) :
    (Except.error e : Except PyExn α).bind f = Except.error e := rfl

theorem except_map_ok {α β : Type} (a : α) (f : α → β) :
    (Except.ok a : Except PyExn α).map f = Except.ok (f a) := rfl

theorem except_map_error {α β : Type} (e : PyExn) (f : α → β) :
    (Except.error e : Except PyExn α).map f = Except.error e := rfl

theorem processList_nil (fs : FS) (st : SubMap) : processList fs st [] = .ok st := rfl

theorem processList_append (fs : FS) (l1 l2 : List FileEntry) (st st2 : SubMap) :
    processList fs st (l1 ++ l2) = .ok st2 ↔
      ∃ st1, processList fs st l1 = .ok st1 ∧ processList fs st1 l2 = .ok st2 := by
  induction l1 generalizing st with
  | nil => simp [processList]
  | cons f t ih =>
    simp only [List.cons_append, processList]
    rcases hpf : processFile fs st f with e | st'
    · simp
    · exact ih st'

theorem processFile_ok_destruct (fs : FS) (st : SubMap) (f : FileEntry) (k : String)
    (st' : SubMap) (hk : extract_subscription_id f.name = some k)
    (hok : processFile fs st f = .ok st') :
    ∃ r1 r2,
      novResolve fs (find_related_json_files fs f k).1
        (parse_diff_text_file fs (pathOf f)).1
        { getOr st k with diff_file := some (pathOf f) } = .ok r1 ∧
      decResolve fs (find_related_json_files fs f k).2
        (parse_diff_text_file fs (pathOf f)).2 r1 = .ok r2 ∧
      st' = setSub st k r2 := by
  rw [processFile_some fs st f k hk] at hok
  rcases h1 : novResolve fs (find_related_json_files fs f k).1
      (parse_diff_text_file fs (pathOf f)).1
      { getOr st k with diff_file := some (pathOf f) } with e | r1 <;> rw [h1] at hok
  · rw [except_bind_error] at hok; cases hok
  · rw [except_bind_ok] at hok
    rcases h2 : decResolve fs (find_related_json_files fs f k).2
        (parse_diff_text_file fs (pathOf f)).2 r1 with e | r2 <;> rw [h2] at hok
    · rw [except_map_error] at hok; cases hok
    · rw [except_map_ok] at hok
      exact ⟨r1, r2, rfl, h2, (Except.ok.inj hok).symm⟩


theorem processFile_lookup_ne (fs : FS) (st : SubMap) (f : FileEntry) (st' : SubMap)
    (sid : String) (hok : processFile fs st f = .ok st')
    (hne : extract_subscription_id f.name ≠ some sid) :
    lookupSub st' sid = lookupSub st sid := by
  rcases hx : extract_subscription_id f.name with - | k
  · rw [processFile_none hx] at hok
    rw [← Except.ok.inj hok]
  · have hks : sid ≠ k := by
      intro hc
      exact hne (by rw [hx, hc])
    obtain ⟨r1, r2, -, -, hst⟩ := processFile_ok_destruct fs st f k st' hx hok
    rw [hst, lookupSub_setSub_ne st k sid r2 hks]

theorem processFile_lookup_isSome (fs : FS) (st : SubMap) (f : FileEntry)
    (st' : SubMap) (sid : String) (hok : processFile fs st f = .ok st')
    (h : (lookupSub st sid).isSome = true) :
    (lookupSub st' sid).isSome = true := by
  rcases hx : extract_subscription_id f.name with - | k
  · rw [processFile_none hx] at hok
    rw [← Except.ok.inj hok]
    exact h
  · obtain ⟨r1, r2, -, -, hst⟩ := processFile_ok_destruct fs st f k st' hx hok
    rw [hst]
    exact lookupSub_isSome_setSub st sid k r2 h

theorem processFile_own_isSome (fs : FS) (st : SubMap) (f : FileEntry)
    (st' : SubMap) (k : String) (hk : extract_subscription_id f.name = some k)
    (hok : processFile fs st f = .ok st') :
    (lookupSub st' k).isSome = true := by
  obtain ⟨r1, r2, -, -, hst⟩ := processFile_ok_destruct fs st f k st' hk hok
  rw [hst, lookupSub_setSub_self]
  rfl

theorem processList_lookup_ne (fs : FS) (l : List FileEntry) (st st' : SubMap)
    (sid : String) (hok : processList fs st l = .ok st')
    (hne : ∀ f ∈ l, extract_subscription_id f.name ≠ some sid) :
    lookupSub st' sid = lookupSub st sid := by
  induction l generalizing st with
  | nil => rw [← Except.ok.inj hok]
  | cons f t ih =>
    simp only [processList] at hok
    rcases hpf : processFile fs st f with e | stm <;> rw [hpf] at hok
    · cases hok
    · rw [ih stm hok (fun g hg => hne g (List.mem_cons_of_mem f hg))]
      exact processFile_lookup_ne fs st f stm sid hpf (hne f (List.mem_cons_self f t))

theorem processList_lookup_isSome (fs : FS) (l : List FileEntry) (st st' : SubMap)
    (sid : String) (hok : processList fs st l = .ok st')
    (h : (lookupSub st sid).isSome = true) :
    (lookupSub st' sid).isSome = true := by
  induction l generalizing st with
  | nil => rw [← Except.ok.inj hok]; exact h
  | cons f t ih =>
    simp only [processList] at hok
    rcases hpf : processFile fs st f with e | stm <;> rw [hpf] at hok
    · cases hok
    · exact ih stm hok (processFile_lookup_isSome fs st f stm sid hpf h)

theorem processList_skip (fs : FS) (l : List FileEntry) (st : SubMap)
    (h : ∀ f ∈ l, extract_subscription_id f.name = none) :
    processList fs st l = .ok st := by
  induction l with
  | nil => rfl
  | cons f t ih =>
    simp only [processList]
    rw [processFile_none (h f (List.mem_cons_self f t))]
    exact ih (fun g hg => h g (List.mem_cons_of_mem f hg))

/-! ## Period projections and per-period facts about the resolution step -/

/-- The two billing periods compared by the script. -/
inductive Period
  | nov
  | dec
deriving DecidableEq

/-- The period slice of a record. -/
def periodData (r : SubRecord) : Period → PeriodData
  | .nov => r.november
  | .dec => r.december

/-- Project a homogeneous pair (sibling paths, fallback pair) by period. -/
def projPeriod {α : Type} (x : α × α) : Period → α
  | .nov => x.1
  | .dec => x.2

theorem novResolve_december (fs : FS) (ndn : Option String) (scn : Option ℚ)
    (r r1 : SubRecord) (hok : novResolve fs ndn scn r = .ok r1) :
    r1.december = r.december ∧ r1.diff_file = r.diff_file := by
  rcases ndn with - | jp
  · rcases scn with - | v
    · rw [← Except.ok.inj hok]; exact ⟨rfl, rfl⟩
    · rw [← Except.ok.inj hok]; exact ⟨rfl, rfl⟩
  · unfold novResolve at hok
    dsimp only at hok
    rcases hpj : parse_json_cost_file fs jp with e | c <;> rw [hpj] at hok
    · cases hok
    · rcases c with - | v
      · rw [← Except.ok.inj hok]; exact ⟨rfl, rfl⟩
      · rw [← Except.ok.inj hok]; exact ⟨rfl, rfl⟩

theorem decResolve_november (fs : FS) (ndd : Option String) (sct : Option ℚ)
    (r r1 : SubRecord) (hok : decResolve fs ndd sct r = .ok r1) :
    r1.november = r.november ∧ r1.diff_file = r.diff_file := by
  rcases ndd with - | jp
  · rcases sct with - | v
    · rw [← Except.ok.inj hok]; exact ⟨rfl, rfl⟩
    · rw [← Except.ok.inj hok]; exact ⟨rfl, rfl⟩
  · unfold decResolve at hok
    dsimp only at hok
    rcases hpj : parse_json_cost_file fs jp with e | c <;> rw [hpj] at hok
    · cases hok
    · rcases c with - | v
      · rw [← Except.ok.inj hok]; exact ⟨rfl, rfl⟩
      · rw [← Except.ok.inj hok]; exact ⟨rfl, rfl⟩

theorem novResolve_untouched (fs : FS) (ndn : Option String) (scn : Option ℚ)
    (r r1 : SubRecord) (hok : novResolve fs ndn scn r = .ok r1)
    (hstruct : ¬ ∃ jp v, ndn = some jp ∧ parse_json_cost_file fs jp = .ok (some v))
    (hfall : ¬ (ndn = none ∧ scn ≠ none)) : r1 = r := by
  rcases ndn with - | jp
  · rcases scn with - | v
    · exact (Except.ok.inj hok).symm
    · exact absurd ⟨rfl, by simp⟩ hfall
  · unfold novResolve at hok
    dsimp only at hok
    rcases hpj : parse_json_cost_file fs jp with e | c <;> rw [hpj] at hok
    · cases hok
    · rcases c with - | v
      · exact (Except.ok.inj hok).symm
      · exact absurd ⟨jp, v, rfl, hpj⟩ hstruct

theorem decResolve_untouched (fs : FS) (ndd : Option String) (sct : Option ℚ)
    (r r1 : SubRecord) (hok : decResolve fs ndd sct r = .ok r1)
    (hstruct : ¬ ∃ jp v, ndd = some jp ∧ parse_json_cost_file fs jp = .ok (some v))
    (hfall : ¬ (ndd = none ∧ sct ≠ none)) : r1 = r := by
  rcases ndd with - | jp
  · rcases sct with - | v
    · exact (Except.ok.inj hok).symm
    · exact absurd ⟨rfl, by simp⟩ hfall
  · unfold decResolve at hok
    dsimp only at hok
    rcases hpj : parse_json_cost_file fs jp with e | c <;> rw [hpj] at hok
    · cases hok
    · rcases c with - | v
      · exact (Except.ok.inj hok).symm
      · exact absurd ⟨jp, v, rfl, hpj⟩ hstruct

theorem novResolve_structured (fs : FS) (jp : String) (scn : Option ℚ)
    (r : SubRecord) (v : ℚ) (hpj : parse_json_cost_file fs jp = .ok (some v)) :
    novResolve fs (some jp) scn r =
      .ok { r with november := { r.november with total := v, file := some jp } } := by
  unfold novResolve
  dsimp only
  rw [hpj]

theorem decResolve_structured (fs : FS) (jp : String) (sct : Option ℚ)
    (r : SubRecord) (v : ℚ) (hpj : parse_json_cost_file fs jp = .ok (some v)) :
    decResolve fs (some jp) sct r =
      .ok { r with december := { r.december with total := v, file := some jp } } := by
  unfold decResolve
  dsimp only
  rw [hpj]

theorem novResolve_fallback (fs : FS) (v : ℚ) (r : SubRecord) :
    novResolve fs none (some v) r =
      .ok { r with november := { r.november with total := v } } := rfl

theorem decResolve_fallback (fs : FS) (v : ℚ) (r : SubRecord) :
    decResolve fs none (some v) r =
      .ok { r with december := { r.december with total := v } } := rfl

/-! ## Sum shape of the aggregation fold -/

theorem foldl_add_eq_sum (g : String × SubRecord → ℚ) (l : SubMap) (c : ℚ) :
    l.foldl (fun acc kv => acc + g kv) c = c + (l.map g).sum := by
  induction l generalizing c with
  | nil => simp
  | cons kv t ih =>
    simp only [List.foldl_cons, List.map_cons, List.sum_cons, ih]
    ring

/-! ## Discovery facts -/

theorem find_diff_files_mem (fs : FS) (f : FileEntry) :
    f ∈ find_diff_files fs ↔
      f ∈ fs.files ∧ containsSub "diff".toList (lowerStr f.name.toList) = true := by
  unfold find_diff_files
  rw [List.mem_mergeSort, List.mem_filter]

theorem find_diff_files_sorted (fs : FS) :
    List.Pairwise (fun a b => strLe (pathOf a) (pathOf b) = true) (find_diff_files fs) := by
  unfold find_diff_files
  exact @List.sorted_mergeSort FileEntry (fun a b => strLe (pathOf a) (pathOf b))
    (fun a b c hab hbc => strLe_trans hab hbc)
    (fun a b => by
      rcases strLe_total (pathOf a) (pathOf b) with h | h
      · simp [h]
      · simp [h])
    _

/-! ## Run-level facts -/

theorem process_all_ok_nil_iff (fs : FS) :
    process_all_files fs = .ok [] ↔
      ∀ f ∈ find_diff_files fs, extract_subscription_id f.name = none := by
  unfold process_all_files
  constructor
  · intro h f hf
    rcases hx : extract_subscription_id f.name with - | k
    · rfl
    · exfalso
      obtain ⟨l1, l2, hl⟩ := List.append_of_mem hf
      rw [hl, processList_append] at h
      obtain ⟨st1, h1, h2⟩ := h
      simp only [processList] at h2
      rcases hpf : processFile fs st1 f with e | stm <;> rw [hpf] at h2
      · cases h2
      · have hsome := processFile_own_isSome fs st1 f stm k hx hpf
        have hfin := processList_lookup_isSome fs l2 stm [] k h2 hsome
        simp [lookupSub_nil] at hfin
  · intro h
    exact processList_skip fs _ [] h

theorem process_all_mem_isSome (fs : FS) (st : SubMap) (f : FileEntry) (k : String)
    (hf : f ∈ find_diff_files fs) (hk : extract_subscription_id f.name = some k)
    (hok : process_all_files fs = .ok st) :
    (lookupSub st k).isSome = true := by
  unfold process_all_files at hok
  obtain ⟨l1, l2, hl⟩ := List.append_of_mem hf
  rw [hl, processList_append] at hok
  obtain ⟨st1, h1, h2⟩ := hok
  simp only [processList] at h2
  rcases hpf : processFile fs st1 f with e | stm <;> rw [hpf] at h2
  · cases h2
  · exact processList_lookup_isSome fs l2 stm st k h2
      (processFile_own_isSome fs st1 f stm k hk hpf)

theorem run_unique_record (fs : FS) (l1 l2 : List FileEntry) (f : FileEntry)
    (k : String) (st : SubMap)
    (hl : find_diff_files fs = l1 ++ f :: l2)
    (h1 : ∀ g ∈ l1, extract_subscription_id g.name ≠ some k)
    (h2 : ∀ g ∈ l2, extract_subscription_id g.name ≠ some k)
    (hk : extract_subscription_id f.name = some k)
    (hok : process_all_files fs = .ok st) :
    ∃ r1 r2,
      novResolve fs (find_related_json_files fs f k).1
        (parse_diff_text_file fs (pathOf f)).1
        { freshRecord with diff_file := some (pathOf f) } = .ok r1 ∧
      decResolve fs (find_related_json_files fs f k).2
        (parse_diff_text_file fs (pathOf f)).2 r1 = .ok r2 ∧
      lookupSub st k = some r2 := by
  unfold process_all_files at hok
  rw [hl, processList_append] at hok
  obtain ⟨st1, hst1, hrest⟩ := hok
  simp only [processList] at hrest
  rcases hpf : processFile fs st1 f with e | stm <;> rw [hpf] at hrest
  · cases hrest
  · have hl1 : lookupSub st1 k = none := by
      rw [processList_lookup_ne fs l1 [] st1 k hst1 h1]
      rfl
    have hget : getOr st1 k = freshRecord := by
      simp [getOr, hl1]
    obtain ⟨r1, r2, hn, hd, hstm⟩ := processFile_ok_destruct fs st1 f k stm hk hpf
    rw [hget] at hn
    have hlk : lookupSub st k = lookupSub stm k :=
      processList_lookup_ne fs l2 stm st k hrest h2
    refine ⟨r1, r2, hn, hd, ?_⟩
    rw [hlk, hstm, lookupSub_setSub_self]

theorem processList_period_default (fs : FS) (l : List FileEntry) (st st' : SubMap)
    (k : String) (p : Period) (hok : processList fs st l = .ok st')
    (hunt : ∀ f ∈ l, extract_subscription_id f.name = some k →
      (¬ ∃ jp v, projPeriod (find_related_json_files fs f k) p = some jp ∧
          parse_json_cost_file fs jp = .ok (some v)) ∧
      ¬ (projPeriod (find_related_json_files fs f k) p = none ∧
          projPeriod (parse_diff_text_file fs (pathOf f)) p ≠ none))
    (hinv : ∀ r, lookupSub st k = some r →
      (periodData r p).total = 0 ∧ (periodData r p).file = none) :
    ∀ r, lookupSub st' k = some r →
      (periodData r p).total = 0 ∧ (periodData r p).file = none := by
  induction l generalizing st with
  | nil =>
    intro r hr
    rw [← Except.ok.inj hok] at hr
    exact hinv r hr
  | cons f t ih =>
    simp only [processList] at hok
    rcases hpf : processFile fs st f with e | stm <;> rw [hpf] at hok
    · cases hok
    · refine ih stm hok (fun g hg => hunt g (List.mem_cons_of_mem f hg)) ?_
      rcases hx : extract_subscription_id f.name with - | k'
      · rw [processFile_none hx] at hpf
        rw [← Except.ok.inj hpf]
        exact hinv
      · by_cases hkk : k' = k
        · subst hkk
          obtain ⟨hstruct, hfall⟩ := hunt f (List.mem_cons_self f t) hx
          obtain ⟨r1, r2, hn, hd, hstm⟩ := processFile_ok_destruct fs st f k' stm hx hpf
          intro r hr
          rw [hstm, lookupSub_setSub_self] at hr
          have hr2 : r = r2 := (Option.some.inj hr).symm
          subst hr2
          have hbase : (periodData { getOr st k' with diff_file := some (pathOf f) } p).total = 0 ∧
              (periodData { getOr st k' with diff_file := some (pathOf f) } p).file = none := by
            rcases hlg : lookupSub st k' with - | r0
            · have : getOr st k' = freshRecord := by simp [getOr, hlg]
              rw [this]
              cases p <;> exact ⟨rfl, rfl⟩
            · have : getOr st k' = r0 := by simp [getOr, hlg]
              rw [this]
              have := hinv r0 hlg
              cases p <;> simpa [periodData] using this
          cases p with
          | nov =>
            have hr1 : r1 = { getOr st k' with diff_file := some (pathOf f) } :=
              novResolve_untouched fs _ _ _ _ hn
                (by simpa [projPeriod] using hstruct) (by simpa [projPeriod] using hfall)
            have hnov : r.november = r1.november := (decResolve_november fs _ _ r1 r hd).1
            rw [hr1] at hnov
            simpa [periodData, hnov] using hbase
          | dec =>
            have hdec1 : r1.december = ({ getOr st k' with diff_file := some (pathOf f) } : SubRecord).december :=
              (novResolve_december fs _ _ _ r1 hn).1
            have hr2d : r = r1 :=
              decResolve_untouched fs _ _ r1 r hd
                (by simpa [projPeriod] using hstruct) (by simpa [projPeriod] using hfall)
            rw [hr2d]
            simpa [periodData, hdec1] using hbase
        · intro r hr
          rw [processFile_lookup_ne fs st f stm k hpf
            (by rw [hx]; simpa using fun hc => hkk hc)] at hr
          exact hinv r hr

/-! # Claim theorems -/

/-- C9 (confirmed): discovery returns exactly those files under the root
whose name contains the marker `"diff"` case-insensitively, as full paths in
lexicographically sorted order.  Determinism over an unchanged tree is
inherent: `find_diff_files` is a pure function of the filesystem value, so
two runs on equal inputs are definitionally equal. -/
theorem claim_C9_discovery (fs : FS) :
    List.Sorted (· ≤ ·) ((find_diff_files fs).map pathOf) ∧
    (∀ p : String, p ∈ (find_diff_files fs).map pathOf ↔
      ∃ f ∈ fs.files, pathOf f = p ∧
        containsSub "diff".toList (lowerStr f.name.toList) = true) := by
  constructor
  · have hs := find_diff_files_sorted fs
    rw [List.Sorted, List.pairwise_map]
    exact hs.imp (fun h => (strLe_iff _ _).mp h)
  · intro p
    simp only [List.mem_map]
    constructor
    · rintro ⟨f, hf, rfl⟩
      obtain ⟨hmem, hcon⟩ := (find_diff_files_mem fs f).mp hf
      exact ⟨f, hmem, rfl, hcon⟩
    · rintro ⟨f, hmem, rfl, hcon⟩
      exact ⟨f, (find_diff_files_mem fs f).mpr ⟨hmem, hcon⟩, rfl⟩

def fsW9 : FS :=
  ⟨true, [⟨"d", "b-diff.txt", ⟨"", none⟩⟩, ⟨"d", "a-DIFF.txt", ⟨"", none⟩⟩,
    ⟨"d", "other.txt", ⟨"", none⟩⟩]⟩

theorem claim_C9_discovery_witness :
    "d/a-DIFF.txt" ∈ (find_diff_files fsW9).map pathOf ∧
    "d/other.txt" ∉ (find_diff_files fsW9).map pathOf := by
  constructor
  · exact ((claim_C9_discovery fsW9).2 "d/a-DIFF.txt").mpr
      ⟨⟨"d", "a-DIFF.txt", ⟨"", none⟩⟩, by simp [fsW9], rfl, by decide⟩
  · intro hmem
    obtain ⟨f, hf, hp, hcon⟩ := ((claim_C9_discovery fsW9).2 "d/other.txt").mp hmem
    simp only [fsW9, List.mem_cons] at hf
    rcases hf with rfl | rfl | rfl | h
    · exact absurd hp (by decide)
    · exact absurd hp (by decide)
    · exact absurd hcon (by decide)
    · exact absurd h (List.not_mem_nil f)

/-- C6 (confirmed): `extract_subscription_id` returns the first (leftmost)
UUID-shaped substring of the name, lower-cased, and `None` exactly when no
such substring exists.  Case-insensitivity of the search and the
lower-casing of the result are both captured by phrasing the shape over the
lowered name (`lowerStr` is the model of `str.lower`); the function is a
pure function of its argument. -/
theorem claim_C6_extract (fn : String) :
    (∀ s : String, extract_subscription_id fn = some s ↔
      ∃ i, (∃ rest, (lowerStr fn.toList).drop i = s.toList ++ rest ∧
          UuidShape s.toList) ∧
        ∀ j < i, ¬ UuidAt (lowerStr fn.toList) j) ∧
    (extract_subscription_id fn = none ↔
      ∀ i, ¬ UuidAt (lowerStr fn.toList) i) := by
  constructor
  · intro s
    unfold extract_subscription_id
    constructor
    · intro h
      rcases hf : findUuid (lowerStr fn.toList) with - | u <;> rw [hf] at h
      · cases h
      · have hsu : u = s.toList := by
          have h2 := Option.some.inj h
          rw [← h2]
          rfl
        rw [hsu] at hf
        exact (findUuid_eq_some_iff _ _).mp hf
    · intro hex
      rw [(findUuid_eq_some_iff (lowerStr fn.toList) s.toList).mpr hex]
      rfl
  · unfold extract_subscription_id
    rw [Option.map_eq_none']
    exact findUuid_eq_none_iff (lowerStr fn.toList)

theorem claim_C6_extract_witness :
    extract_subscription_id "1111aaaa-2222-bbbb-3333-ccccdddd4444-diff.txt" =
      some "1111aaaa-2222-bbbb-3333-ccccdddd4444" ∧
    (∀ i, ¬ UuidAt (lowerStr "no-id-here.txt".toList) i) := by
  constructor
  · refine ((claim_C6_extract _).1 _).mpr ⟨0, ⟨"-diff.txt".toList, by decide, ?_⟩, ?_⟩
    · refine ⟨"1111aaaa".toList, "2222".toList, "bbbb".toList, "3333".toList,
        "ccccdddd4444".toList, by decide, by decide, by decide, by decide, by decide,
        by decide, ?_, ?_, ?_, ?_, ?_⟩ <;> (unfold HexListLower; decide)
    · intro j hj
      cases hj
  · exact (claim_C6_extract "no-id-here.txt").2.mp (by decide)

/-- C4 (confirmed): `calculate_aggregates` returns the component-wise sums
of the per-record period totals, their difference, the percentage (exactly 0
when the November sum is 0, else change over November sum times 100) and the
record count.  It is a pure function of the mapping; costs are modelled as
exact rationals. -/
theorem claim_C4_aggregates (st : SubMap) :
    (calculate_aggregates st).total_november =
      (st.map (fun kv => kv.2.november.total)).sum ∧
    (calculate_aggregates st).total_december =
      (st.map (fun kv => kv.2.december.total)).sum ∧
    (calculate_aggregates st).total_change =
      (st.map (fun kv => kv.2.december.total)).sum -
        (st.map (fun kv => kv.2.november.total)).sum ∧
    ((st.map (fun kv => kv.2.november.total)).sum = 0 →
      (calculate_aggregates st).percent_change = 0) ∧
    ((st.map (fun kv => kv.2.november.total)).sum ≠ 0 →
      (calculate_aggregates st).percent_change =
        ((st.map (fun kv => kv.2.december.total)).sum -
          (st.map (fun kv => kv.2.november.total)).sum) /
          (st.map (fun kv => kv.2.november.total)).sum * 100) ∧
    (calculate_aggregates st).subscription_count = st.length := by
  have hn : st.foldl (fun acc kv => acc + kv.2.november.total) 0 =
      (st.map (fun kv => kv.2.november.total)).sum := by
    rw [foldl_add_eq_sum (fun kv => kv.2.november.total) st 0, zero_add]
  have hd : st.foldl (fun acc kv => acc + kv.2.december.total) 0 =
      (st.map (fun kv => kv.2.december.total)).sum := by
    rw [foldl_add_eq_sum (fun kv => kv.2.december.total) st 0, zero_add]
  unfold calculate_aggregates
  refine ⟨hn, hd, by rw [hn, hd], ?_, ?_, rfl⟩
  · intro hz
    simp only [hn, hz]
    simp
  · intro hz
    simp only [hn, hd]
    rw [if_pos hz]

def stW4a : SubMap := []

def stW4b : SubMap :=
  [("a", ⟨⟨10, "EUR", none⟩, ⟨15, "EUR", none⟩, none⟩),
   ("b", ⟨⟨0, "EUR", none⟩, ⟨5, "EUR", none⟩, none⟩)]

theorem claim_C4_aggregates_witness :
    (calculate_aggregates stW4a).percent_change = 0 ∧
    (calculate_aggregates stW4b).percent_change =
      ((stW4b.map (fun kv => kv.2.december.total)).sum -
        (stW4b.map (fun kv => kv.2.november.total)).sum) /
        (stW4b.map (fun kv => kv.2.november.total)).sum * 100 ∧
    (calculate_aggregates stW4b).subscription_count = 2 := by
  refine ⟨(claim_C4_aggregates stW4a).2.2.2.1 (by simp [stW4a]), ?_, ?_⟩
  · exact (claim_C4_aggregates stW4b).2.2.2.2.1 (by norm_num [stW4b])
  · exact (claim_C4_aggregates stW4b).2.2.2.2.2

def fsC2 : FS :=
  ⟨true, [⟨"d", "x.json",
    ⟨"x", some (.obj [("totals", .obj [("totalCostInTimeframe", .str "abc")])])⟩⟩]⟩

/-- C2 counterexample: a structured document whose `totals.totalCostInTimeframe`
is the non-numeric-convertible string `"abc"` makes `float(...)` raise
`ValueError`, which the `except` clause does not catch — the exception
propagates to the caller instead of yielding "unavailable". -/
theorem claim_C2_counterexample :
    parse_json_cost_file fsC2 "d/x.json" = .error PyExn.valueError := by
  rfl

/-- C2 (corrected, amended): `parse_json_cost_file` yields the numeric value
of `totals.totalCostInTimeframe` when present and convertible, and
"unavailable" (`None`) when the file is missing, the content is not
decodable, or either nested key is absent — but it does NOT catch every
structural deviation: a `totals` value that is not a mapping raises
`TypeError`, and a non-numeric-convertible leaf value raises `ValueError`
(the final conjunct propagates exactly the error of the `float`
conversion), so exceptions can escape to the caller. -/
theorem claim_C2_amended (fs : FS) (p : String) :
    (fsContent fs p = none → parse_json_cost_file fs p = .ok none) ∧
    (∀ cv : ContentView, fsContent fs p = some cv → cv.json = none →
      parse_json_cost_file fs p = .ok none) ∧
    (∀ cv fields, fsContent fs p = some cv → cv.json = some (.obj fields) →
      (∀ kv ∈ fields, kv.1 ≠ "totals") → parse_json_cost_file fs p = .ok none) ∧
    (∀ cv fields kt tfields, fsContent fs p = some cv →
      cv.json = some (.obj fields) →
      fields.find? (fun kv => kv.1 = "totals") = some (kt, .obj tfields) →
      (∀ kv ∈ tfields, kv.1 ≠ "totalCostInTimeframe") →
      parse_json_cost_file fs p = .ok none) ∧
    (∀ cv fields kt tfields kf v, fsContent fs p = some cv →
      cv.json = some (.obj fields) →
      fields.find? (fun kv => kv.1 = "totals") = some (kt, .obj tfields) →
      tfields.find? (fun kv => kv.1 = "totalCostInTimeframe") = some (kf, v) →
      parse_json_cost_file fs p = (pyFloat v).map some) ∧
    (∀ cv fields kt q, fsContent fs p = some cv →
      cv.json = some (.obj fields) →
      fields.find? (fun kv => kv.1 = "totals") = some (kt, .num q) →
      parse_json_cost_file fs p = .error .typeError) := by
  refine ⟨?_, ?_, ?_, ?_, ?_, ?_⟩
  · intro h
    unfold parse_json_cost_file
    rw [h]
  · intro cv hc hj
    unfold parse_json_cost_file
    rw [hc]
    dsimp only
    rw [hj]
  · intro cv fields hc hj hkeys
    unfold parse_json_cost_file
    rw [hc]
    dsimp only
    rw [hj]
    have hany : (fields.any (fun kv => kv.1 = "totals")) = false := by
      rw [List.any_eq_false]
      intro kv hkv
      simpa using hkeys kv hkv
    dsimp only
    rw [show pyContains (.obj fields) "totals" = .ok false from by
      simp [pyContains, hany]]
    rw [ok_bind, if_neg (by decide)]
    rfl
  · intro cv fields kt tfields hc hj hfind hkeys
    unfold parse_json_cost_file
    rw [hc]
    dsimp only
    rw [hj]
    have hany : (fields.any (fun kv => kv.1 = "totals")) = true := by
      rw [List.any_eq_true]
      refine ⟨(kt, .obj tfields), List.mem_of_find?_eq_some hfind, ?_⟩
      have := List.find?_some hfind
      simpa using this
    have hany2 : (tfields.any (fun kv => kv.1 = "totalCostInTimeframe")) = false := by
      rw [List.any_eq_false]
      intro kv hkv
      simpa using hkeys kv hkv
    dsimp only
    rw [show pyContains (.obj fields) "totals" = .ok true from by
      simp [pyContains, hany]]
    rw [ok_bind, if_pos rfl]
    rw [show pyGetItem (.obj fields) "totals" = .ok (.obj tfields) from by
      simp [pyGetItem, hfind]]
    rw [ok_bind]
    rw [show pyContains (.obj tfields) "totalCostInTimeframe" = .ok false from by
      simp [pyContains, hany2]]
    rw [ok_bind, if_neg (by decide)]
    rfl
  · intro cv fields kt tfields kf v hc hj hfind hfind2
    unfold parse_json_cost_file
    rw [hc]
    dsimp only
    rw [hj]
    have hany : (fields.any (fun kv => kv.1 = "totals")) = true := by
      rw [List.any_eq_true]
      refine ⟨(kt, .obj tfields), List.mem_of_find?_eq_some hfind, ?_⟩
      have := List.find?_some hfind
      simpa using this
    have hany2 : (tfields.any (fun kv => kv.1 = "totalCostInTimeframe")) = true := by
      rw [List.any_eq_true]
      refine ⟨(kf, v), List.mem_of_find?_eq_some hfind2, ?_⟩
      have := List.find?_some hfind2
      simpa using this
    dsimp only
    rw [show pyContains (.obj fields) "totals" = .ok true from by
      simp [pyContains, hany]]
    rw [ok_bind, if_pos rfl]
    rw [show pyGetItem (.obj fields) "totals" = .ok (.obj tfields) from by
      simp [pyGetItem, hfind]]
    rw [ok_bind]
    rw [show pyContains (.obj tfields) "totalCostInTimeframe" = .ok true from by
      simp [pyContains, hany2]]
    rw [ok_bind, if_pos rfl]
    rw [show pyGetItem (.obj tfields) "totalCostInTimeframe" = .ok v from by
      simp [pyGetItem, hfind2]]
    rw [ok_bind]
    rcases hv : pyFloat v with e | q
    · have hnc : (e = PyExn.valueError ∨ e = PyExn.typeError) := by
        rcases v with - | b | q0 | sv | el | fl <;> simp [pyFloat] at hv
        · exact Or.inr hv.symm
        · rcases hpp : pyFloatParse sv.data with - | q1 <;> rw [hpp] at hv <;>
            simp at hv
          exact Or.inl hv.symm
        · exact Or.inr hv.symm
        · exact Or.inr hv.symm
      rw [except_map_error, error_bind]
      rcases hnc with rfl | rfl <;> rfl
    · rw [except_map_ok, ok_bind]
      rfl
  · intro cv fields kt q hc hj hfind
    unfold parse_json_cost_file
    rw [hc]
    dsimp only
    rw [hj]
    have hany : (fields.any (fun kv => kv.1 = "totals")) = true := by
      rw [List.any_eq_true]
      refine ⟨(kt, .num q), List.mem_of_find?_eq_some hfind, ?_⟩
      have := List.find?_some hfind
      simpa using this
    dsimp only
    rw [show pyContains (.obj fields) "totals" = .ok true from by
      simp [pyContains, hany]]
    rw [ok_bind, if_pos rfl]
    rw [show pyGetItem (.obj fields) "totals" = .ok (.num q) from by
      simp [pyGetItem, hfind]]
    rw [ok_bind]
    rw [show pyContains (.num q) "totalCostInTimeframe" = .error .typeError from rfl]
    rw [error_bind]

def fsW2 : FS :=
  ⟨true, [⟨"d", "good.json",
    ⟨"x", some (.obj [("totals", .obj [("totalCostInTimeframe", .num 7)])])⟩⟩,
    ⟨"d", "bad.json", ⟨"not json", none⟩⟩]⟩

theorem claim_C2_amended_witness :
    parse_json_cost_file fsW2 "d/missing.json" = .ok none ∧
    parse_json_cost_file fsW2 "d/bad.json" = .ok none ∧
    parse_json_cost_file fsW2 "d/good.json" = .ok (some 7) := by
  refine ⟨(claim_C2_amended fsW2 "d/missing.json").1 (by rfl),
    (claim_C2_amended fsW2 "d/bad.json").2.1 ⟨"not json", none⟩ (by rfl) rfl, ?_⟩
  have h := (claim_C2_amended fsW2 "d/good.json").2.2.2.2.1
    ⟨"x", some (.obj [("totals", .obj [("totalCostInTimeframe", .num 7)])])⟩
    [("totals", .obj [("totalCostInTimeframe", .num 7)])]
    "totals" [("totalCostInTimeframe", .num 7)] "totalCostInTimeframe" (.num 7)
    (by rfl) rfl (by rfl) (by rfl)
  rw [h]
  rfl

/-- Claim-side figure format for C5, transcribed from the specification
wording: digits with optional comma thousands separators, then exactly two
decimal places. -/
def Fig2dp (g : List Char) : Prop :=
  ∃ a b, g = a ++ '.' :: b ∧ a ≠ [] ∧ (∀ c ∈ a, isDigComma c = true) ∧
    b.length = 2 ∧ (∀ c ∈ b, isDigitC c = true)

/-- Claim-side row existence for C5: some position carries a TOTAL COSTS row
whose two figures have exactly two decimal places. -/
def HasClaimRow2dp (cs : List Char) : Prop :=
  ∃ i g1 g2, RowAt cs i g1 g2 ∧ Fig2dp g1 ∧ Fig2dp g2

theorem dot_split_unique {a b a' b' : List Char}
    (h : a ++ '.' :: b = a' ++ '.' :: b')
    (ha : '.' ∉ a) (ha' : '.' ∉ a') : a = a' ∧ b = b' := by
  induction a generalizing a' with
  | nil =>
    cases a' with
    | nil => simpa using h
    | cons x t =>
      injection h with h1 h2
      exact absurd (by rw [← h1] at *; exact List.mem_cons_self '.' t) ha'
  | cons y t ih =>
    cases a' with
    | nil =>
      injection h with h1 h2
      exact absurd (by rw [h1]; exact List.mem_cons_self '.' t) ha
    | cons y' t' =>
      injection h with h1 h2
      obtain ⟨e1, e2⟩ := ih h2 (fun hc => ha (List.mem_cons_of_mem _ hc))
        (fun hc => ha' (List.mem_cons_of_mem _ hc))
      exact ⟨by rw [h1, e1], e2⟩

def contentC5 : String := "| TOTAL COSTS | 0.125 EUR | 0.250 EUR"

def fsC5 : FS := ⟨true, [⟨"d", "x-diff.txt", ⟨contentC5, none⟩⟩]⟩

/-- C5 counterexample: the source pattern accepts one-or-more decimal
digits, not exactly two.  A document whose only TOTAL COSTS row carries
three-decimal figures contains no row in the claim's format, yet
`parse_diff_text_file` returns `(0.125, 0.25)` instead of the claimed
`(unavailable, unavailable)`. -/
theorem claim_C5_counterexample :
    parse_diff_text_file fsC5 "d/x-diff.txt" = (some (1/8 : ℚ), some (1/4 : ℚ)) ∧
    parse_diff_text_file fsC5 "d/x-diff.txt" ≠ ((none : Option ℚ), (none : Option ℚ)) ∧
    ¬ HasClaimRow2dp contentC5.toList := by
  have hs : searchRow contentC5.toList = some ("0.125".toList, "0.250".toList) := by
    decide
  have hmain : parse_diff_text_file fsC5 "d/x-diff.txt" =
      (some (1/8 : ℚ), some (1/4 : ℚ)) := by
    unfold parse_diff_text_file
    rw [show fsContent fsC5 "d/x-diff.txt" = some ⟨contentC5, none⟩ from rfl]
    dsimp only
    rw [hs]
    dsimp only
    rw [show stripCommas "0.125".toList = "0".toList ++ '.' :: "125".toList from by
      decide]
    rw [show stripCommas "0.250".toList = "0".toList ++ '.' :: "250".toList from by
      decide]
    rw [pyFloatParse_digits_dot (by decide) (by decide) (by decide)]
    rw [pyFloatParse_digits_dot (by decide) (by decide) (by decide)]
    dsimp only
    rw [show digitsVal ("0".toList ++ "125".toList) = 125 from by decide]
    rw [show digitsVal ("0".toList ++ "250".toList) = 250 from by decide]
    rw [show ("125".toList).length = 3 from by decide]
    rw [show ("250".toList).length = 3 from by decide]
    norm_num
  refine ⟨hmain, by rw [hmain]; simp, ?_⟩
  rintro ⟨i, g1, g2, hrow, h2dp1, -⟩
  have hscan := rowFromHead_of_RowFrom hrow
  by_cases hi : i < contentC5.toList.length
  · have htab : ((List.range contentC5.toList.length).all (fun j =>
        decide (rowFromHead (contentC5.toList.drop j) =
          if j = 0 then some ("0.125".toList, "0.250".toList) else none))) = true := by
      decide
    rw [List.all_eq_true] at htab
    have hj := htab i (List.mem_range.mpr hi)
    rw [decide_eq_true_eq] at hj
    rw [hj] at hscan
    by_cases h0 : i = 0
    · rw [if_pos h0] at hscan
      have hg1 : g1 = "0.125".toList := by
        have := Option.some.inj hscan
        rw [Prod.mk.injEq] at this
        exact this.1.symm
      obtain ⟨a, b, heq, hane, hadc, hblen, -⟩ := h2dp1
      rw [hg1] at heq
      have hsplit : a = "0".toList ∧ b = "125".toList := by
        have heq' : "0".toList ++ '.' :: "125".toList = a ++ '.' :: b := by
          rw [← heq]
          decide
        have := dot_split_unique heq' (by decide) (fun hc => by
          have := hadc '.' hc
          simp [isDigComma, isDigitC] at this)
        exact ⟨this.1.symm, this.2.symm⟩
      rw [hsplit.2] at hblen
      simp at hblen
    · rw [if_neg h0] at hscan
      cases hscan
  · have hnil : contentC5.toList.drop i = [] :=
      List.drop_eq_nil_of_le (Nat.le_of_not_lt hi)
    rw [hnil] at hscan
    cases hscan

/-- C5 (corrected, amended): `parse_diff_text_file` returns
`(unavailable, unavailable)` when the file is missing or no position of the
content matches the TOTAL COSTS pattern, where a figure is one-or-more
digits/commas, a dot, and ONE-or-more decimal digits (`[\\d,]+\\.\\d+`) — not
exactly two decimals as the claim stated; on the leftmost match it returns
both figures with commas stripped, as exact decimal values. -/
theorem claim_C5_amended (fs : FS) (p : String) :
    (fsContent fs p = none → parse_diff_text_file fs p = (none, none)) ∧
    (∀ cv : ContentView, fsContent fs p = some cv →
      (∀ i g1 g2, ¬ RowAt cv.text.toList i g1 g2) →
      parse_diff_text_file fs p = (none, none)) ∧
    (∀ cv : ContentView, ∀ i g1 g2, fsContent fs p = some cv →
      RowAt cv.text.toList i g1 g2 →
      (∀ j < i, ∀ h1 h2, ¬ RowAt cv.text.toList j h1 h2) →
      parse_diff_text_file fs p = (some (figValQ g1), some (figValQ g2))) := by
  refine ⟨?_, ?_, ?_⟩
  · intro h
    unfold parse_diff_text_file
    rw [h]
  · intro cv hc hno
    unfold parse_diff_text_file
    rw [hc]
    dsimp only
    rw [(searchRow_eq_none_iff cv.text.toList).mpr hno]
  · intro cv i g1 g2 hc hrow hleft
    unfold parse_diff_text_file
    rw [hc]
    dsimp only
    rw [(searchRow_eq_some_iff cv.text.toList g1 g2).mpr ⟨i, hrow, hleft⟩]
    dsimp only
    have hf1 : FigStr g1 := by
      obtain ⟨w1, w2, w3, w4, w5, w6, w7, rest, -, -, -, -, -, -, -, hf1, -, -⟩ := hrow
      exact hf1
    have hf2 : FigStr g2 := by
      obtain ⟨w1, w2, w3, w4, w5, w6, w7, rest, -, -, -, -, -, -, -, -, hf2, -⟩ := hrow
      exact hf2
    rw [pyFloatParse_stripCommas_fig hf1, pyFloatParse_stripCommas_fig hf2]

def fsW5 : FS := ⟨true, [⟨"d", "w-diff.txt", ⟨"| TOTAL COSTS | 5.0 EUR | 8.0 EUR", none⟩⟩]⟩

theorem claim_C5_amended_witness :
    parse_diff_text_file fsW5 "d/none.txt" = (none, none) ∧
    parse_diff_text_file fsW5 "d/w-diff.txt" =
      (some (figValQ "5.0".toList), some (figValQ "8.0".toList)) := by
  constructor
  · exact (claim_C5_amended fsW5 "d/none.txt").1 rfl
  · refine (claim_C5_amended fsW5 "d/w-diff.txt").2.2
      ⟨"| TOTAL COSTS | 5.0 EUR | 8.0 EUR", none⟩ 0 "5.0".toList "8.0".toList rfl ?_ ?_
    · refine ⟨" ".toList, " ".toList, " ".toList, " ".toList, " ".toList, " ".toList,
        " ".toList, [], ?_, ?_, ?_, ?_, ?_, ?_, ?_, ?_, ?_, ?_⟩ <;>
        first
          | (unfold WsList; decide)
          | (exact ⟨"5".toList, "0".toList, by decide, by decide, by decide, by decide,
              by decide⟩)
          | (exact ⟨"8".toList, "0".toList, by decide, by decide, by decide, by decide,
              by decide⟩)
          | decide
    · intro j hj
      cases hj

def sidU : String := "1111aaaa-2222-bbbb-3333-ccccdddd4444"

theorem find_diff_singleton (fs : FS) (f : FileEntry)
    (h : fs.files.filter
      (fun g => containsSub "diff".toList (lowerStr g.name.toList)) = [f]) :
    find_diff_files fs = [f] := by
  unfold find_diff_files
  rw [h]
  exact List.mergeSort_singleton f

def fC7 : FileEntry := ⟨"d", "sub-" ++ sidU ++ "-diff.txt", ⟨"", none⟩⟩

def fsC7 : FS :=
  ⟨true, [fC7, ⟨"d", "november-" ++ sidU ++ ".json",
    ⟨"x", some (.obj [("totals", .obj [("totalCostInTimeframe", .str "abc")])])⟩⟩]⟩

/-- C7 counterexample: the root exists and a discovered comparison document
yields an identifier (so "zero subscriptions reconciled" does not apply),
yet the run terminates with status 1 and no report: the sibling structured
document's non-numeric total raises an uncaught `ValueError` that aborts the
interpreter — not the claimed report-and-exit-0. -/
theorem claim_C7_counterexample :
    fsC7.rootExists = true ∧
    fC7 ∈ find_diff_files fsC7 ∧
    extract_subscription_id fC7.name = some sidU ∧
    main fsC7 = (1, false) ∧
    main fsC7 ≠ (0, true) := by
  have hfd : find_diff_files fsC7 = [fC7] := find_diff_singleton fsC7 fC7 (by rfl)
  have hmain : main fsC7 = (1, false) := by
    unfold main
    rw [if_pos (show fsC7.rootExists = true from rfl)]
    unfold process_all_files
    rw [hfd]
    rfl
  refine ⟨rfl, ?_, by decide, hmain, ?_⟩
  · rw [hfd]
    exact List.mem_cons_self fC7 []
  · rw [hmain]
    decide

/-- C7 (corrected, amended): the run exits 1 with no report when the root is
missing, when zero subscriptions are reconciled (equivalently: no discovered
file name yields an identifier), and ALSO when reconciliation aborts on an
uncaught extraction exception; it writes the report and exits 0 exactly when
the root exists and processing completes with a nonempty mapping. -/
theorem claim_C7_amended (fs : FS) :
    (main fs = (0, true) ∨ main fs = (1, false)) ∧
    (main fs = (0, true) ↔
      fs.rootExists = true ∧ ∃ st, process_all_files fs = .ok st ∧ st ≠ []) ∧
    (process_all_files fs = .ok [] ↔
      ∀ f ∈ find_diff_files fs, extract_subscription_id f.name = none) := by
  refine ⟨?_, ?_, process_all_ok_nil_iff fs⟩
  · unfold main
    by_cases hr : fs.rootExists
    · rw [if_pos hr]
      rcases hp : process_all_files fs with e | st
      · exact Or.inr rfl
      · dsimp only
        by_cases hst : st.isEmpty
        · rw [if_pos hst]
          exact Or.inr rfl
        · rw [if_neg hst]
          exact Or.inl rfl
    · rw [if_neg hr]
      exact Or.inr rfl
  · unfold main
    by_cases hr : fs.rootExists
    · rw [if_pos hr]
      rcases hp : process_all_files fs with e | st
      · dsimp only
        constructor
        · intro h
          exact absurd h (by decide)
        · rintro ⟨-, st, hst, -⟩
          cases hst
      · dsimp only
        by_cases hst : st.isEmpty
        · rw [if_pos hst]
          constructor
          · intro h
            exact absurd h (by decide)
          · rintro ⟨-, st', hst', hne⟩
            have he := Except.ok.inj hst'
            rw [← he] at hne
            exact absurd (List.isEmpty_iff.mp hst) hne
        · rw [if_neg hst]
          constructor
          · intro _
            exact ⟨hr, st, rfl, fun hc => hst (by rw [hc]; rfl)⟩
          · intro _
            rfl
    · rw [if_neg hr]
      constructor
      · intro h
        exact absurd h (by decide)
      · rintro ⟨hc, -⟩
        exact absurd hc hr

def fW7 : FileEntry := ⟨"d", "sub-" ++ sidU ++ "-diff.txt", ⟨"", none⟩⟩

def fsW7 : FS := ⟨true, [fW7]⟩

theorem claim_C7_amended_witness :
    fsW7.rootExists = true ∧ ∃ st, process_all_files fsW7 = .ok st ∧ st ≠ [] := by
  have hfd : find_diff_files fsW7 = [fW7] := find_diff_singleton fsW7 fW7 (by rfl)
  have hmain : main fsW7 = (0, true) := by
    unfold main
    rw [if_pos (show fsW7.rootExists = true from rfl)]
    unfold process_all_files
    rw [hfd]
    rfl
  exact (claim_C7_amended fsW7).2.1.mp hmain

def fW10 : FileEntry := ⟨"d", "junk-" ++ sidU ++ "-diff.txt", ⟨"no table here", none⟩⟩

def fsW10 : FS := ⟨true, [fW10]⟩

/-- C10 (confirmed): a discovered comparison document whose name yields an
identifier creates a record even when its contents are unparseable and no
sibling structured documents exist; the record keeps both period totals at
0.0 with no period source paths, is counted (the mapping is nonempty), and
on its own suffices for the run to write a report and exit 0; and processing
yields the empty mapping exactly when no discovered file name yields an
identifier. -/
theorem claim_C10_empty_record (fs : FS) (l1 l2 : List FileEntry) (f : FileEntry)
    (k : String) (st : SubMap)
    (hroot : fs.rootExists = true)
    (hl : find_diff_files fs = l1 ++ f :: l2)
    (h1 : ∀ g ∈ l1, extract_subscription_id g.name ≠ some k)
    (h2 : ∀ g ∈ l2, extract_subscription_id g.name ≠ some k)
    (hk : extract_subscription_id f.name = some k)
    (hfall : parse_diff_text_file fs (pathOf f) = (none, none))
    (hsib : find_related_json_files fs f k = (none, none))
    (hok : process_all_files fs = .ok st) :
    (∃ r, lookupSub st k = some r ∧ r.november.total = 0 ∧ r.december.total = 0 ∧
      r.november.file = none ∧ r.december.file = none ∧
      r.diff_file = some (pathOf f)) ∧
    st ≠ [] ∧ main fs = (0, true) ∧
    (process_all_files fs = .ok [] ↔
      ∀ g ∈ find_diff_files fs, extract_subscription_id g.name = none) := by
  obtain ⟨r1, r2, hn, hd, hlk⟩ := run_unique_record fs l1 l2 f k st hl h1 h2 hk hok
  rw [hsib, hfall] at hn
  have hr1 : r1 = { freshRecord with diff_file := some (pathOf f) } :=
    (Except.ok.inj hn).symm
  rw [hsib, hfall, hr1] at hd
  have hr2 : r2 = { freshRecord with diff_file := some (pathOf f) } :=
    (Except.ok.inj hd).symm
  rw [hr2] at hlk
  have hne : st ≠ [] := by
    intro hc
    rw [hc] at hlk
    cases hlk
  refine ⟨⟨{ freshRecord with diff_file := some (pathOf f) }, hlk, rfl, rfl, rfl, rfl,
    rfl⟩, hne, ?_, process_all_ok_nil_iff fs⟩
  unfold main
  rw [if_pos hroot, hok]
  dsimp only
  rw [if_neg (fun hc => hne (List.isEmpty_iff.mp hc))]

theorem claim_C10_empty_record_witness :
    ∃ r, lookupSub [(sidU, { freshRecord with diff_file := some (pathOf fW10) })] sidU
        = some r ∧
      r.november.total = 0 ∧ r.december.total = 0 ∧
      r.november.file = none ∧ r.december.file = none ∧
      r.diff_file = some (pathOf fW10) := by
  have hfd : find_diff_files fsW10 = [fW10] := find_diff_singleton fsW10 fW10 (by rfl)
  have hok : process_all_files fsW10 =
      .ok [(sidU, { freshRecord with diff_file := some (pathOf fW10) })] := by
    unfold process_all_files
    rw [hfd]
    rfl
  have h := claim_C10_empty_record fsW10 [] [] fW10 sidU
    [(sidU, { freshRecord with diff_file := some (pathOf fW10) })]
    rfl hfd (by intro g hg; cases hg) (by intro g hg; cases hg)
    (by decide) (by rfl) (by rfl) hok
  exact h.1

def fW8 : FileEntry := ⟨"d", "junk2-" ++ sidU ++ "-diff.txt", ⟨"nothing", none⟩⟩

def fsW8 : FS := ⟨true, [fW8]⟩

/-- C8 (confirmed): at the time aggregation begins (processing completed
without an uncaught exception), any record of the final mapping whose period
was never assigned — no discovered file of that subscription had a usable
structured total for the period, and none took the fallback branch for it —
has that period's total exactly 0.0 and no source path. -/
theorem claim_C8_zero_default (fs : FS) (st : SubMap) (k : String) (p : Period)
    (r : SubRecord)
    (hok : process_all_files fs = .ok st)
    (hunt : ∀ f ∈ find_diff_files fs, extract_subscription_id f.name = some k →
      (¬ ∃ jp v, projPeriod (find_related_json_files fs f k) p = some jp ∧
          parse_json_cost_file fs jp = .ok (some v)) ∧
      ¬ (projPeriod (find_related_json_files fs f k) p = none ∧
          projPeriod (parse_diff_text_file fs (pathOf f)) p ≠ none))
    (hr : lookupSub st k = some r) :
    (periodData r p).total = 0 ∧ (periodData r p).file = none := by
  refine processList_period_default fs (find_diff_files fs) [] st k p hok hunt
    ?_ r hr
  intro r0 h0
  cases h0

theorem claim_C8_zero_default_witness :
    (periodData { freshRecord with diff_file := some (pathOf fW8) } Period.nov).total
        = 0 ∧
    (periodData { freshRecord with diff_file := some (pathOf fW8) } Period.nov).file
        = none := by
  have hfd : find_diff_files fsW8 = [fW8] := find_diff_singleton fsW8 fW8 (by rfl)
  have hok : process_all_files fsW8 =
      .ok [(sidU, { freshRecord with diff_file := some (pathOf fW8) })] := by
    unfold process_all_files
    rw [hfd]
    rfl
  refine claim_C8_zero_default fsW8 _ sidU Period.nov _ hok ?_ (by rfl)
  intro f hf hkf
  rw [hfd] at hf
  have hffw : f = fW8 := by simpa using hf
  subst hffw
  constructor
  · rintro ⟨jp, v, hjp, -⟩
    rw [show projPeriod (find_related_json_files fsW8 fW8 sidU) Period.nov = none
      from rfl] at hjp
    cases hjp
  · rintro ⟨-, hne⟩
    exact hne rfl

/-- Concrete evaluation of the fallback parser on the witness comparison
document `| TOTAL COSTS | 5.0 EUR | 8.0 EUR`. -/
theorem parse_diff_five_eight (fs : FS) (p : String)
    (h : fsContent fs p = some ⟨"| TOTAL COSTS | 5.0 EUR | 8.0 EUR", none⟩) :
    parse_diff_text_file fs p = (some 5, some 8) := by
  have hs : searchRow ("| TOTAL COSTS | 5.0 EUR | 8.0 EUR" : String).toList =
      some ("5.0".toList, "8.0".toList) := by decide
  unfold parse_diff_text_file
  rw [h]
  dsimp only
  rw [hs]
  dsimp only
  rw [show stripCommas "5.0".toList = "5".toList ++ '.' :: "0".toList from by decide]
  rw [show stripCommas "8.0".toList = "8".toList ++ '.' :: "0".toList from by decide]
  rw [pyFloatParse_digits_dot (by decide) (by decide) (by decide)]
  rw [pyFloatParse_digits_dot (by decide) (by decide) (by decide)]
  have h5 : ((digitsVal ("5".toList ++ "0".toList) : ℚ)) / 10 ^ ("0".toList).length
      = 5 := by
    rw [show digitsVal ("5".toList ++ "0".toList) = 50 from by decide]
    rw [show ("0".toList).length = 1 from by decide]
    norm_num
  have h8 : ((digitsVal ("8".toList ++ "0".toList) : ℚ)) / 10 ^ ("0".toList).length
      = 8 := by
    rw [show digitsVal ("8".toList ++ "0".toList) = 80 from by decide]
    rw [show ("0".toList).length = 1 from by decide]
    norm_num
  rw [h5, h8]

def cvRowC1 : ContentView := ⟨"| TOTAL COSTS | 1,000.00 EUR | 800.00 EUR", none⟩

def fC1 : FileEntry := ⟨"d", "nov-vs-dec-" ++ sidU ++ "-diff.txt", cvRowC1⟩

def fsC1 : FS :=
  ⟨true, [fC1, ⟨"d", "december-" ++ sidU ++ ".json", ⟨"junk", none⟩⟩]⟩

def decPathC1 : String := "d/december-" ++ sidU ++ ".json"

/-- C1 counterexample: the December sibling structured document exists but is
undecodable (its extraction is "unavailable"), and the comparison document's
fallback pair has the usable December value 800 — yet the recorded December
total is 0, not the fallback value: the source consults the fallback only
when NO sibling file exists (`if dec_file: ... elif target_cost ...`). -/
theorem claim_C1_counterexample :
    pathExists fsC1 decPathC1 = true ∧
    parse_json_cost_file fsC1 decPathC1 = .ok none ∧
    (parse_diff_text_file fsC1 (pathOf fC1)).2 = some 800 ∧
    (process_all_files fsC1).map
      (fun st => (lookupSub st sidU).map (fun r => (r.december.total, r.december.file)))
        = .ok (some ((0 : ℚ), (none : Option String))) ∧
    (0 : ℚ) ≠ 800 := by
  have hfd : find_diff_files fsC1 = [fC1] := find_diff_singleton fsC1 fC1 (by rfl)
  refine ⟨rfl, rfl, ?_, ?_, by norm_num⟩
  · have hs : searchRow cvRowC1.text.toList =
        some ("1,000.00".toList, "800.00".toList) := by decide
    unfold parse_diff_text_file
    rw [show fsContent fsC1 (pathOf fC1) = some cvRowC1 from rfl]
    dsimp only
    rw [hs]
    dsimp only
    rw [show stripCommas "1,000.00".toList = "1000".toList ++ '.' :: "00".toList
      from by decide]
    rw [show stripCommas "800.00".toList = "800".toList ++ '.' :: "00".toList
      from by decide]
    rw [pyFloatParse_digits_dot (by decide) (by decide) (by decide)]
    rw [pyFloatParse_digits_dot (by decide) (by decide) (by decide)]
    dsimp only
    rw [show digitsVal ("800".toList ++ "00".toList) = 80000 from by decide]
    rw [show ("00".toList).length = 2 from by decide]
    norm_num
  · rw [show process_all_files fsC1 = processList fsC1 [] [fC1] from by
      unfold process_all_files; rw [hfd]]
    rfl

/-- C1 (corrected, amended): for each period independently, the fallback
value is recorded exactly when NO sibling structured file exists for that
period and the fallback pair is usable for it (then the total is the
fallback value with no source path); when a sibling exists but its
extraction is unavailable, the period keeps its default instead — the
fallback is not consulted. -/
theorem claim_C1_amended (fs : FS) (l1 l2 : List FileEntry) (f : FileEntry)
    (k : String) (st : SubMap) (p : Period) (v : ℚ)
    (hl : find_diff_files fs = l1 ++ f :: l2)
    (h1 : ∀ g ∈ l1, extract_subscription_id g.name ≠ some k)
    (h2 : ∀ g ∈ l2, extract_subscription_id g.name ≠ some k)
    (hk : extract_subscription_id f.name = some k)
    (hnos : projPeriod (find_related_json_files fs f k) p = none)
    (hfb : projPeriod (parse_diff_text_file fs (pathOf f)) p = some v)
    (hok : process_all_files fs = .ok st) :
    ∃ r, lookupSub st k = some r ∧
      (periodData r p).total = v ∧ (periodData r p).file = none := by
  obtain ⟨r1, r2, hn, hd, hlk⟩ := run_unique_record fs l1 l2 f k st hl h1 h2 hk hok
  cases p with
  | nov =>
    rw [show projPeriod (find_related_json_files fs f k) Period.nov =
      (find_related_json_files fs f k).1 from rfl] at hnos
    rw [show projPeriod (parse_diff_text_file fs (pathOf f)) Period.nov =
      (parse_diff_text_file fs (pathOf f)).1 from rfl] at hfb
    rw [hnos, hfb, novResolve_fallback] at hn
    have hr1 := (Except.ok.inj hn).symm
    have hpres := decResolve_november fs _ _ r1 r2 hd
    refine ⟨r2, hlk, ?_, ?_⟩
    · show r2.november.total = v
      rw [hpres.1, hr1]
    · show r2.november.file = none
      rw [hpres.1, hr1]
      rfl
  | dec =>
    rw [show projPeriod (find_related_json_files fs f k) Period.dec =
      (find_related_json_files fs f k).2 from rfl] at hnos
    rw [show projPeriod (parse_diff_text_file fs (pathOf f)) Period.dec =
      (parse_diff_text_file fs (pathOf f)).2 from rfl] at hfb
    have hpres := novResolve_december fs _ _ _ r1 hn
    rw [hnos, hfb, decResolve_fallback] at hd
    have hr2 := (Except.ok.inj hd).symm
    refine ⟨r2, hlk, ?_, ?_⟩
    · show r2.december.total = v
      rw [hr2]
    · show r2.december.file = none
      rw [hr2]
      show r1.december.file = none
      rw [hpres.1]
      rfl

def fW1 : FileEntry :=
  ⟨"d", "w1-" ++ sidU ++ "-diff.txt", ⟨"| TOTAL COSTS | 5.0 EUR | 8.0 EUR", none⟩⟩

def fsW1 : FS := ⟨true, [fW1]⟩

def recW1 : SubRecord := ⟨⟨5, "EUR", none⟩, ⟨8, "EUR", none⟩, some (pathOf fW1)⟩

theorem claim_C1_amended_witness :
    ∃ r, lookupSub [(sidU, recW1)] sidU = some r ∧
      (periodData r Period.dec).total = 8 ∧ (periodData r Period.dec).file = none := by
  have hfd : find_diff_files fsW1 = [fW1] := find_diff_singleton fsW1 fW1 (by rfl)
  have hsc : parse_diff_text_file fsW1 (pathOf fW1) = (some 5, some 8) :=
    parse_diff_five_eight fsW1 (pathOf fW1) rfl
  have hok : process_all_files fsW1 = .ok [(sidU, recW1)] := by
    unfold process_all_files
    rw [hfd]
    show processList fsW1 [] [fW1] = _
    unfold processList
    rw [processFile_some fsW1 [] fW1 sidU rfl]
    rw [show find_related_json_files fsW1 fW1 sidU = (none, none) from rfl]
    rw [hsc]
    dsimp only
    rw [novResolve_fallback, except_bind_ok, decResolve_fallback, except_map_ok]
    rfl
  exact claim_C1_amended fsW1 [] [] fW1 sidU [(sidU, recW1)] Period.dec 8 hfd
    (fun g hg => absurd hg (List.not_mem_nil g))
    (fun g hg => absurd hg (List.not_mem_nil g))
    rfl rfl (congrArg Prod.snd hsc) hok

/-- C3 (confirmed): per period, a sibling structured document whose extraction
yields a usable total outranks the comparison-document fallback: the recorded
total is the structured value with the structured path as source, never the
fallback value even when the two differ; the other period resolves
independently. -/
theorem claim_C3_precedence (fs : FS) (l1 l2 : List FileEntry) (f : FileEntry)
    (k : String) (st : SubMap) (p : Period) (v : ℚ) (jp : String) (w : ℚ)
    (hl : find_diff_files fs = l1 ++ f :: l2)
    (h1 : ∀ g ∈ l1, extract_subscription_id g.name ≠ some k)
    (h2 : ∀ g ∈ l2, extract_subscription_id g.name ≠ some k)
    (hk : extract_subscription_id f.name = some k)
    (hjp : projPeriod (find_related_json_files fs f k) p = some jp)
    (hv : parse_json_cost_file fs jp = .ok (some v))
    (hw : projPeriod (parse_diff_text_file fs (pathOf f)) p = some w)
    (hok : process_all_files fs = .ok st) :
    ∃ r, lookupSub st k = some r ∧
      (periodData r p).total = v ∧ (periodData r p).file = some jp ∧
      (v ≠ w → (periodData r p).total ≠ w) := by
  obtain ⟨r1, r2, hn, hd, hlk⟩ := run_unique_record fs l1 l2 f k st hl h1 h2 hk hok
  cases p with
  | nov =>
    rw [show projPeriod (find_related_json_files fs f k) Period.nov =
      (find_related_json_files fs f k).1 from rfl] at hjp
    rw [hjp, novResolve_structured fs jp _ _ v hv] at hn
    have hr1 := (Except.ok.inj hn).symm
    have hpres := decResolve_november fs _ _ r1 r2 hd
    have htot : r2.november.total = v := by rw [hpres.1, hr1]
    have hfile : r2.november.file = some jp := by rw [hpres.1, hr1]
    exact ⟨r2, hlk, htot, hfile, fun hne => by
      show r2.november.total ≠ w
      rw [htot]; exact hne⟩
  | dec =>
    rw [show projPeriod (find_related_json_files fs f k) Period.dec =
      (find_related_json_files fs f k).2 from rfl] at hjp
    rw [hjp, decResolve_structured fs jp _ _ v hv] at hd
    have hr2 := (Except.ok.inj hd).symm
    have htot : r2.december.total = v := by rw [hr2]
    have hfile : r2.december.file = some jp := by rw [hr2]
    exact ⟨r2, hlk, htot, hfile, fun hne => by
      show r2.december.total ≠ w
      rw [htot]; exact hne⟩

def fW3 : FileEntry :=
  ⟨"d", "w3-" ++ sidU ++ "-diff.txt", ⟨"| TOTAL COSTS | 5.0 EUR | 8.0 EUR", none⟩⟩

def jpW3 : String := "d/november-" ++ sidU ++ ".json"

def jW3 : FileEntry :=
  ⟨"d", "november-" ++ sidU ++ ".json",
    ⟨"x", some (JsonVal.obj
      [("totals", JsonVal.obj [("totalCostInTimeframe", JsonVal.num 7)])])⟩⟩

def fsW3 : FS := ⟨true, [fW3, jW3]⟩

def recW3 : SubRecord :=
  ⟨⟨7, "EUR", some jpW3⟩, ⟨8, "EUR", none⟩, some (pathOf fW3)⟩

theorem claim_C3_precedence_witness :
    ∃ r, lookupSub [(sidU, recW3)] sidU = some r ∧
      (periodData r Period.nov).total = 7 ∧
      (periodData r Period.nov).file = some jpW3 ∧
      ((7 : ℚ) ≠ 5 → (periodData r Period.nov).total ≠ 5) := by
  have hfd : find_diff_files fsW3 = [fW3] := find_diff_singleton fsW3 fW3 (by rfl)
  have hsc : parse_diff_text_file fsW3 (pathOf fW3) = (some 5, some 8) :=
    parse_diff_five_eight fsW3 (pathOf fW3) rfl
  have hok : process_all_files fsW3 = .ok [(sidU, recW3)] := by
    unfold process_all_files
    rw [hfd]
    show processList fsW3 [] [fW3] = _
    unfold processList
    rw [processFile_some fsW3 [] fW3 sidU rfl]
    rw [show find_related_json_files fsW3 fW3 sidU = (some jpW3, none) from rfl]
    rw [hsc]
    dsimp only
    rw [novResolve_structured fsW3 jpW3 (some 5) _ 7 rfl]
    rw [except_bind_ok, decResolve_fallback, except_map_ok]
    rfl
  exact claim_C3_precedence fsW3 [] [] fW3 sidU [(sidU, recW3)] Period.nov 7 jpW3 5
    hfd (fun g hg => absurd hg (List.not_mem_nil g))
    (fun g hg => absurd hg (List.not_mem_nil g))
    rfl rfl rfl (congrArg Prod.fst hsc) hok

end CostAgg
